import Mathlib

/-!
Verification development for the chunked-upload storage provider, the media
processing worker, and the URL-import pipeline of the talknote backend.

The definitions below are shallow embeddings of the Python source:

* `LocalStorageProvider.*` embeds `backend/app/providers/storage/local.py`.
  All storage paths there are keyed by `(user_id, media_id)`, so the state of
  one media asset is independent of every other; the embedded state is the
  per-`(user_id, media_id)` slice of the filesystem (chunk files, the final
  media file, and the JSON metadata sidecar).  Python `dict`s are embedded as
  insertion-ordered association lists with unique keys (`dictInsert` is the
  semantics of `d[k] = v`).  Timestamp fields (`created_at`, `updated_at`,
  `uploaded_at`) carry no logic and are omitted.  Python float division for
  progress values is idealised by exact rationals.  A raised Python exception
  is an `Except.error`.  The chunk filename `chunk_{index:04d}.bin` is in
  bijection with the index, so chunk files are keyed by their `Nat` index.
* `MediaWorker.*` embeds `backend/app/workers/media_worker.py` together with
  the transcript CRUD of `backend/app/services/transcript.py`; the database
  table of transcripts is embedded as a list of rows, `create` appends a row.
* `UrlImport.*` embeds `_split_into_chunks` of
  `backend/app/services/url_importer.py` and the success/fallback paths of
  `_process_url_import` of `backend/app/api/api_v1/endpoints/imports.py`.
  Text is a `List Char`; the two `re.split` calls are embedded by direct
  scanners for the concrete patterns used by the source.
-/

set_option maxRecDepth 8000

instance exceptDecEq {ε α : Type} [DecidableEq ε] [DecidableEq α] :
    DecidableEq (Except ε α) := fun x y =>
  match x, y with
  | Except.ok a, Except.ok b =>
    match decEq a b with
    | isTrue h => isTrue (by rw [h])
    | isFalse h => isFalse (by intro hh; cases hh; exact h rfl)
  | Except.error a, Except.error b =>
    match decEq a b with
    | isTrue h => isTrue (by rw [h])
    | isFalse h => isFalse (by intro hh; cases hh; exact h rfl)
  | Except.ok _, Except.error _ => isFalse (by intro hh; cases hh)
  | Except.error _, Except.ok _ => isFalse (by intro hh; cases hh)

namespace PyDict

/-- Lookup in an insertion-ordered association list (semantics of
`d.get(k)` on a Python dict whose keys are unique). -/
def dictGet {α : Type} (m : List (Nat × α)) (k : Nat) : Option α :=
  match m with
  | [] => none
  | (k', v) :: rest => if k' = k then some v else dictGet rest k

/-- Keys of the association list, in insertion order. -/
def keys {α : Type} (m : List (Nat × α)) : List Nat :=
  m.map Prod.fst

/-- Semantics of the Python dict assignment `d[k] = v` on a dict with unique
keys: replace the entry in place when the key is present, otherwise append
it at the end (dicts preserve insertion order). -/
def dictInsert {α : Type} (m : List (Nat × α)) (k : Nat) (v : α) : List (Nat × α) :=
  match m with
  | [] => [(k, v)]
  | (k', v') :: rest => if k' = k then (k, v) :: rest else (k', v') :: dictInsert rest k v

end PyDict

open PyDict

namespace LocalStorageProvider

/-- `settings.MAX_DIRECT_UPLOAD_SIZE` (5 MB) from `app/core/settings.py`. -/
def MAX_DIRECT_UPLOAD_SIZE : Nat := 5242880

/-- `settings.MAX_CHUNK_SIZE` (5 MB) from `app/core/settings.py`. -/
def MAX_CHUNK_SIZE : Nat := 5242880

/-- `_get_extension_from_mimetype`: map a MIME type to a file extension,
defaulting to `bin`. -/
def _get_extension_from_mimetype (mimetype : String) : String :=
  let m := mimetype.toLower
  if m = "audio/wav" then "wav"
  else if m = "audio/x-wav" then "wav"
  else if m = "audio/wave" then "wav"
  else if m = "audio/mp3" then "mp3"
  else if m = "audio/mpeg" then "mp3"
  else if m = "audio/m4a" then "m4a"
  else if m = "audio/mp4" then "m4a"
  else if m = "audio/aac" then "aac"
  else if m = "audio/ogg" then "ogg"
  else if m = "audio/webm" then "webm"
  else if m = "application/pdf" then "pdf"
  else if m = "image/jpeg" then "jpg"
  else if m = "image/png" then "png"
  else if m = "application/octet-stream" then "bin"
  else "bin"

/-- One value of the per-chunk bookkeeping dict `metadata["chunks"][str(i)]`
(the `uploaded_at` timestamp is omitted).  `path` holds the chunk file key:
the source stores the filename `chunk_{index:04d}.bin`, which is in bijection
with the index, so the index itself is used as the key. -/
structure ChunkInfo where
  size : Nat
  path : Nat
  deriving DecidableEq, Repr

/-- The JSON metadata sidecar of one media asset.  Every field is optional
because the sidecar is a JSON object whose keys appear as the source adds
them (`_load_metadata` returns `{}` when the file does not exist). -/
structure Metadata where
  media_id : Option String := none
  user_id : Option String := none
  file_type : Option String := none
  file_size : Option Nat := none
  status : Option String := none
  progress : Option Rat := none
  filename : Option String := none
  chunks : Option (List (Nat × ChunkInfo)) := none
  total_chunks : Option Nat := none
  upload_progress : Option Rat := none
  file_path : Option String := none
  md5_hash : Option String := none
  result : Option String := none
  deriving DecidableEq, Repr

/-- The storage state for one `(user_id, media_id)` pair: the chunk files
under `chunks/{user}/{media}/`, the assembled media file under
`media/{user}/`, and the metadata sidecar under `metadata/{user}/`.  Chunk
file contents are byte lists. -/
structure LocalState where
  chunkFiles : List (Nat × List Nat)
  finalFile : Option (List Nat)
  metadata : Option Metadata
  deriving DecidableEq, Repr

/-- The state before any call for a fresh media id: no chunk files, no final
file, no metadata sidecar. -/
def initialState : LocalState :=
  { chunkFiles := [], finalFile := none, metadata := none }

/-- `_load_metadata`: returns the stored sidecar, or `{}` when absent. -/
def _load_metadata (st : LocalState) : Metadata :=
  st.metadata.getD {}

/-- Result dict of `generate_upload_url`. -/
structure UploadUrlResult where
  media_id : String
  upload_url : String
  chunk_upload_enabled : Bool
  max_chunk_size : Nat
  deriving DecidableEq, Repr

/-- `generate_upload_url`: store fresh `pending` metadata and decide between
direct and chunked upload by `file_size > settings.MAX_DIRECT_UPLOAD_SIZE`. -/
def generate_upload_url (st : LocalState) (media_id : String) (file_type : String)
    (file_size : Nat) (user_id : String) : LocalState × UploadUrlResult :=
  let ext := _get_extension_from_mimetype file_type
  let metadata : Metadata :=
    { media_id := some media_id, user_id := some user_id,
      file_type := some file_type, file_size := some file_size,
      status := some "pending", progress := some 0,
      filename := some (media_id ++ "." ++ ext) }
  let st1 : LocalState := { st with metadata := some metadata }
  let chunk_upload_enabled := MAX_DIRECT_UPLOAD_SIZE < file_size
  (st1,
   { media_id := media_id,
     upload_url := "http://localhost:8000/api/v1/media/test-upload/" ++ media_id,
     chunk_upload_enabled := chunk_upload_enabled,
     max_chunk_size := MAX_CHUNK_SIZE })

/-- Result dict of `upload_chunk`. -/
structure ChunkUploadResult where
  media_id : String
  chunk_index : Nat
  received_bytes : Nat
  status : String
  deriving DecidableEq, Repr

/-- `upload_chunk`: write the chunk file, then rebuild the metadata dict in
memory (add the chunk entry, overwrite `total_chunks`, compute
`upload_progress = len(chunks) / total_chunks`) and save it.  When
`total_chunks = 0` the progress division raises `ZeroDivisionError`: the
chunk file has already been written but the metadata sidecar is not saved. -/
def upload_chunk (st : LocalState) (media_id : String) (chunk_index : Nat)
    (total_chunks : Nat) (chunk_data : List Nat) :
    LocalState × Except String ChunkUploadResult :=
  let chunk_size := chunk_data.length
  let st1 : LocalState := { st with chunkFiles := dictInsert st.chunkFiles chunk_index chunk_data }
  let metadata := _load_metadata st1
  let chunksMap := dictInsert (metadata.chunks.getD []) chunk_index
      { size := chunk_size, path := chunk_index }
  let metadata := { metadata with chunks := some chunksMap, total_chunks := some total_chunks }
  if total_chunks = 0 then
    (st1, Except.error "ZeroDivisionError")
  else
    let metadata := { metadata with
      upload_progress := some ((chunksMap.length : Rat) / (total_chunks : Rat)) }
    ({ st1 with metadata := some metadata },
     Except.ok { media_id := media_id, chunk_index := chunk_index,
                 received_bytes := chunk_size, status := "success" })

/-- Error cases of the chunk-concatenation loop of `complete_upload`. -/
inductive ConcatError where
  | missingIndex (i : Nat)
  | fileNotFound (path : Nat)
  deriving DecidableEq, Repr

/-- The chunk-concatenation loop of `complete_upload`: for each index in
order, look up the bookkeeping entry, open the chunk file it points to and
append its bytes.  Returns the bytes written to the output file so far,
paired with the first error if one occurs (a missing bookkeeping entry, or a
missing chunk file, which in the source raises `FileNotFoundError`). -/
def readChunksLoop (chunkFiles : List (Nat × List Nat))
    (chunksMap : List (Nat × ChunkInfo)) :
    List Nat → List Nat × Option ConcatError
  | [] => ([], none)
  | i :: rest =>
    match dictGet chunksMap i with
    | none => ([], some (ConcatError.missingIndex i))
    | some info =>
      match dictGet chunkFiles info.path with
      | none => ([], some (ConcatError.fileNotFound info.path))
      | some bytes =>
        let r := readChunksLoop chunkFiles chunksMap rest
        (bytes ++ r.1, r.2)

/-- Result dict of `complete_upload` (also the shape returned for the
chunk-mismatch and missing-chunk error cases). -/
structure CompleteUploadResult where
  media_id : String
  status : String
  progress : Rat
  error : Option String := none
  deriving DecidableEq, Repr

/-- `complete_upload`: reject when the `chunks` key is absent or the stored
chunk count differs from `total_chunks` (without touching any state);
otherwise open the final file and concatenate the chunks by ascending index.
A missing index aborts with an error dict, leaving the partially written
final file but not saving the metadata.  On success the metadata status
becomes `processing`, `file_path` is recorded, `md5_hash` is stored when the
argument is a non-empty string, and the chunk files are left in place. -/
def complete_upload (st : LocalState) (media_id : String) (total_chunks : Nat)
    (total_size : Nat) (md5_hash : Option String) :
    LocalState × Except String CompleteUploadResult :=
  let metadata := _load_metadata st
  if metadata.chunks.isNone ∨ (metadata.chunks.getD []).length ≠ total_chunks then
    (st, Except.ok
      { media_id := media_id, status := "error", progress := 0,
        error := some ("チャンク数が一致しません。期待: " ++ toString total_chunks ++
          ", 実際: " ++ toString (metadata.chunks.getD []).length) })
  else
    let chunksMap := metadata.chunks.getD []
    let ext := _get_extension_from_mimetype (metadata.file_type.getD "application/octet-stream")
    let final_path := media_id ++ "." ++ ext
    let r := readChunksLoop st.chunkFiles chunksMap (List.range total_chunks)
    match r.2 with
    | some (ConcatError.missingIndex i) =>
      ({ st with finalFile := some r.1 }, Except.ok
        { media_id := media_id, status := "error", progress := 0,
          error := some ("チャンク " ++ toString i ++ " が見つかりません") })
    | some (ConcatError.fileNotFound _) =>
      ({ st with finalFile := some r.1 }, Except.error "FileNotFoundError")
    | none =>
      let metadata := { metadata with
        status := some "processing", progress := some 0,
        file_path := some final_path,
        md5_hash := match md5_hash with
          | some h => if h = "" then metadata.md5_hash else some h
          | none => metadata.md5_hash }
      ({ st with finalFile := some r.1, metadata := some metadata },
       Except.ok { media_id := media_id, status := "processing", progress := 0 })

/-- `delete_file`: a no-op returning `False` when the metadata sidecar is
missing or empty (Python dict truthiness); otherwise delete the final file
named by `file_path` (when recorded), remove the whole chunk directory, and
delete the metadata sidecar. -/
def delete_file (st : LocalState) (media_id : String) : LocalState × Bool :=
  let m := _load_metadata st
  if m = {} then (st, false)
  else
    ({ chunkFiles := [],
       finalFile := if m.file_path.isSome then none else st.finalFile,
       metadata := none }, true)

end LocalStorageProvider

namespace UrlImport

/-- Code points of the characters matched by Python's `\s` class and stripped
by `str.strip()` (the Unicode white-space set used by CPython). -/
def pyWhitespaceCodes : List Nat :=
  [9, 10, 11, 12, 13, 28, 29, 30, 31, 32, 133, 160, 5760,
   8192, 8193, 8194, 8195, 8196, 8197, 8198, 8199, 8200, 8201, 8202,
   8232, 8233, 8239, 8287, 12288]

/-- Whether a character belongs to Python's `\s` class. -/
def pyIsSpace (c : Char) : Bool :=
  pyWhitespaceCodes.contains c.toNat

/-- `str.strip()`: drop leading and trailing whitespace. -/
def pyStrip (s : List Char) : List Char :=
  ((s.dropWhile pyIsSpace).reverse.dropWhile pyIsSpace).reverse

/-- Whether a character is the newline. -/
def isNl (c : Char) : Bool :=
  c = '\n'

theorem length_takeWhile_add_dropWhile {α : Type} (p : α → Bool) (l : List α) :
    (l.takeWhile p).length + (l.dropWhile p).length = l.length := by
  rw [← List.length_append, List.takeWhile_append_dropWhile]

theorem length_dropWhile_le {α : Type} (p : α → Bool) (l : List α) :
    (l.dropWhile p).length ≤ l.length := by
  have := length_takeWhile_add_dropWhile p l
  omega

/-- For a whitespace run that contains a newline, the characters after its
last newline (the part of the run that a greedy `\n\s*\n` match does not
consume); `none` when the run has no newline. -/
def afterLastNl (run : List Char) : Option (List Char) :=
  if '\n' ∈ run then
    some (run.reverse.takeWhile (fun c => ! isNl c)).reverse
  else none

theorem length_takeWhile_notNl_lt {l : List Char} (h : '\n' ∈ l) :
    (l.takeWhile (fun c => ! isNl c)).length < l.length := by
  induction l with
  | nil => simp at h
  | cons c rest ih =>
    by_cases hc : c = '\n'
    · subst hc
      rw [List.takeWhile_cons]
      simp [isNl]
    · have hrest : '\n' ∈ rest := by
        rcases List.mem_cons.mp h with h1 | h1
        · exact absurd h1.symm hc
        · exact h1
      rw [List.takeWhile_cons]
      simp only [isNl, hc]
      simpa using Nat.succ_lt_succ (ih hrest)

theorem afterLastNl_length {run post : List Char} (h : afterLastNl run = some post) :
    post.length < run.length := by
  unfold afterLastNl at h
  by_cases hc : '\n' ∈ run
  · rw [if_pos hc] at h
    have hpost := Option.some.inj h
    have hmem : '\n' ∈ run.reverse := List.mem_reverse.mpr hc
    have := length_takeWhile_notNl_lt hmem
    subst hpost
    simpa using this
  · rw [if_neg hc] at h
    exact absurd h (by simp)

/-- Scanner for `re.split(r'\n\s*\n', text)`: a match starts at a newline
whose following maximal whitespace run contains another newline; the greedy
`\s*` with backtracking makes the match extend through the last newline of
that run, and scanning resumes after it. -/
def splitBlankAux (l : List Char) (acc : List Char) : List (List Char) :=
  match l with
  | [] => [acc.reverse]
  | c :: rest =>
    if c = '\n' then
      match h : afterLastNl (rest.takeWhile pyIsSpace) with
      | none => splitBlankAux rest ('\n' :: acc)
      | some post => acc.reverse :: splitBlankAux (post ++ rest.dropWhile pyIsSpace) []
    else splitBlankAux rest (c :: acc)
termination_by l.length
decreasing_by
  all_goals first
  | (simp only [List.length_cons]; omega)
  | (have h1 : post.length < (rest.takeWhile pyIsSpace).length := afterLastNl_length h
     have h2 := length_takeWhile_add_dropWhile pyIsSpace rest
     simp only [List.length_append, List.length_cons]
     omega)

/-- `re.split(r'\n\s*\n', text)` from `_split_into_chunks`. -/
def splitBlank (text : List Char) : List (List Char) :=
  splitBlankAux text []

/-- Whether a character is one of the sentence terminators `。！？`. -/
def isSentenceTerm (c : Char) : Bool :=
  c = '。' ∨ c = '！' ∨ c = '？'

/-- Scanner for `re.split(r'[。！？]\s*', text)`: each match is a terminator
followed by the maximal whitespace run; the terminator and the run belong to
no token (the terminators are dropped from the output). -/
def splitSentAux (l : List Char) (acc : List Char) : List (List Char) :=
  match l with
  | [] => [acc.reverse]
  | c :: rest =>
    if isSentenceTerm c then
      acc.reverse :: splitSentAux (rest.dropWhile pyIsSpace) []
    else splitSentAux rest (c :: acc)
termination_by l.length
decreasing_by
  all_goals first
  | (have h1 := length_dropWhile_le pyIsSpace rest
     simp only [List.length_cons]
     omega)
  | (simp only [List.length_cons]; omega)

/-- `re.split(r'[。！？]\s*', text)` from `_split_into_chunks`. -/
def splitSentences (text : List Char) : List (List Char) :=
  splitSentAux text []

/-- The hard-slice loop `for i in range(0, len(paragraph), max_chars)` of
`_split_into_chunks`: slice the paragraph into consecutive pieces of
`max_chars` characters.  The source only calls it with `max_chars = 2000`;
`max_chars = 0` would raise `ValueError` in Python and yields `[]` here. -/
def hardSlices (max_chars : Nat) (p : List Char) : List (List Char) :=
  if max_chars = 0 then []
  else if p.isEmpty then []
  else p.take max_chars :: hardSlices max_chars (p.drop max_chars)
termination_by p.length
decreasing_by
  rename_i h0 hp
  have hlen : p.length ≠ 0 := by
    cases p
    · simp at hp
    · simp
  rw [List.length_drop]
  omega

/-- The paragraph-accumulation loop of `_split_into_chunks`: strip each
paragraph, skip empty ones, append to the current chunk (joined by a
reinserted `"\n\n"`) while `len(current_chunk + paragraph) <= max_chars`,
otherwise flush the current chunk and either hard-slice an oversized
paragraph or start a new chunk with it. -/
def chunkLoop (max_chars : Nat) :
    List (List Char) → List (List Char) → List Char → List (List Char)
  | [], chunks, current => if current.isEmpty then chunks else chunks ++ [current]
  | para :: rest, chunks, current =>
    let p := pyStrip para
    if p.isEmpty then chunkLoop max_chars rest chunks current
    else if current.length + p.length ≤ max_chars then
      chunkLoop max_chars rest chunks
        (if current.isEmpty then p else current ++ ['\n', '\n'] ++ p)
    else
      let chunks1 := if current.isEmpty then chunks else chunks ++ [current]
      if max_chars < p.length then
        chunkLoop max_chars rest (chunks1 ++ hardSlices max_chars p) []
      else chunkLoop max_chars rest chunks1 p

/-- `_split_into_chunks(text, max_chars)` of `app/services/url_importer.py`:
return the whole text when it fits, otherwise split into paragraphs (falling
back to sentence splitting when there is a single paragraph) and accumulate
them into chunks. -/
def _split_into_chunks (text : List Char) (max_chars : Nat) : List (List Char) :=
  if text.length ≤ max_chars then [text]
  else
    let ps := splitBlank text
    let paragraphs := if ps.length = 1 then splitSentences text else ps
    chunkLoop max_chars paragraphs [] []

/-- The fields of `extraction_result` used by `_process_url_import`
(`text` and the optional `title`). -/
structure ExtractionResult where
  text : List Char
  title : Option String
  deriving DecidableEq, Repr

/-- The exceptions distinguished by `_process_url_import`'s handlers. -/
inductive ImportExc where
  | urlImportError (msg : String)
  | unexpected (msg : String)
  deriving DecidableEq, Repr

/-- One entry of the `pages` list assembled by `_process_url_import`. -/
structure ImportPage where
  page_number : Nat
  text : List Char
  text_length : Nat
  is_ai_enhanced : Bool
  deriving DecidableEq, Repr

/-- The fields of the in-memory `import_jobs[import_id]` dict touched by
`_process_url_import` (timestamps omitted). -/
structure ImportJobInfo where
  status : String := "pending"
  progress : Rat := 0
  note_id : Option String := none
  title : Option String := none
  total_pages : Option Nat := none
  pages : List ImportPage := []
  extracted_text_length : Option Nat := none
  error_message : Option String := none
  error_code : Option String := none
  deriving DecidableEq, Repr

/-- `_process_url_import` of `app/api/api_v1/endpoints/imports.py`.  The two
external collaborators are parameters: `extraction` is the outcome of
`url_importer.extract_text_from_url` and `enhance` is
`AIService().generate_title` applied to the 500-character text prefix (an
`Except.error` models a raised exception).  A failed enhance step is caught
and the title falls back to `extraction_result.get('title', 'Imported
Note')`; page splitting runs when `auto_split` is set, the text exceeds
2000 characters and `settings.IMPORT_SPLIT_ENABLED` holds. -/
def _process_url_import (job : ImportJobInfo) (import_id : String)
    (extraction : Except ImportExc ExtractionResult)
    (enhance : List Char → Except String String)
    (auto_title auto_split split_enabled : Bool) : ImportJobInfo :=
  let job1 := { job with status := "processing", progress := (1 : Rat) / 10 }
  match extraction with
  | Except.error (ImportExc.urlImportError msg) =>
    { job1 with status := "failed", error_message := some msg,
                error_code := some "URL_IMPORT_ERROR" }
  | Except.error (ImportExc.unexpected _) =>
    { job1 with status := "failed",
                error_message := some "予期しないエラーが発生しました",
                error_code := some "INTERNAL_ERROR" }
  | Except.ok er =>
    let job2 := { job1 with progress := (1 : Rat) / 2 }
    let title :=
      if auto_title ∧ er.text ≠ [] then
        match enhance (er.text.take 500) with
        | Except.ok t => t
        | Except.error _ => er.title.getD "Imported Note"
      else er.title.getD "Imported Note"
    let job3 := { job2 with progress := (7 : Rat) / 10 }
    let note_id := "import_" ++ import_id
    let pages :=
      if auto_split ∧ 2000 < er.text.length ∧ split_enabled then
        (_split_into_chunks er.text 2000).enum.map
          (fun q => { page_number := q.1 + 1, text := q.2,
                      text_length := q.2.length, is_ai_enhanced := false })
      else
        [{ page_number := 1, text := er.text,
           text_length := er.text.length, is_ai_enhanced := false }]
    { job3 with status := "completed", progress := 1,
                note_id := some note_id, title := some title,
                total_pages := some pages.length, pages := pages,
                extracted_text_length := some er.text.length }

end UrlImport

namespace MediaWorker

/-- One row of the transcripts table (the columns the worker writes). -/
structure TranscriptRec where
  media_asset_id : String
  text : String
  provider : String
  confidence : Rat
  deriving DecidableEq, Repr

/-- `CRUDBase.create`: insert a new row and commit. -/
def create (db : List TranscriptRec) (rec : TranscriptRec) : List TranscriptRec :=
  db ++ [rec]

/-- `CRUDTranscript.get_by_provider` of `app/services/transcript.py`: the
first transcript row matching `(media_asset_id, provider)`, if any. -/
def get_by_provider (db : List TranscriptRec) (media_asset_id provider : String) :
    Option TranscriptRec :=
  db.find? (fun t => t.media_asset_id == media_asset_id && t.provider == provider)

/-- The transcription outcome returned by the STT provider. -/
structure TranscriptionResult where
  text : String
  confidence : Rat
  deriving DecidableEq, Repr

/-- `MediaWorker._process_audio` of `app/workers/media_worker.py`, with the
filesystem check and the STT provider call as parameters (an `Except.error`
models a raised exception, which the worker catches and maps to `False`).
On success it writes the transcript with `crud_transcript.create` — a plain
insert, with no lookup of an existing `(media_asset_id, provider)` row. -/
def _process_audio (db : List TranscriptRec) (media_id : String)
    (file_exists : Bool) (stt : Except String TranscriptionResult) :
    List TranscriptRec × Bool :=
  if ¬ file_exists then (db, false)
  else
    match stt with
    | Except.error _ => (db, false)
    | Except.ok r =>
      (create db { media_asset_id := media_id, text := r.text,
                   provider := "google", confidence := r.confidence }, true)

/-- The number of transcript rows for a `(media_asset_id, provider)` key. -/
def countByProvider (db : List TranscriptRec) (media_asset_id provider : String) : Nat :=
  db.countP (fun t => t.media_asset_id == media_asset_id && t.provider == provider)

end MediaWorker

namespace LocalStorageProvider

/-- Drive one `upload_chunk` call per index of `order` (in that order), each
declaring the same `total` and sending `data i` as the bytes of index `i`. -/
def uploadAll (media_id : String) (data : Nat → List Nat) (total : Nat) :
    List Nat → LocalState → LocalState
  | [], st => st
  | i :: rest, st =>
    uploadAll media_id data total rest (upload_chunk st media_id i total (data i)).1

/-- The chunk bookkeeping dict currently recorded in the metadata sidecar
(`metadata.get("chunks", {})`). -/
def chunksOf (st : LocalState) : List (Nat × ChunkInfo) :=
  (_load_metadata st).chunks.getD []

end LocalStorageProvider

namespace PyDict

theorem dictInsert_of_not_mem {α : Type} {m : List (Nat × α)} {k : Nat} (v : α)
    (h : k ∉ keys m) : dictInsert m k v = m ++ [(k, v)] := by
  induction m with
  | nil => rfl
  | cons p rest ih =>
    have hp : p.1 ≠ k := fun hk => h (by simp [keys, hk])
    have hrest : k ∉ keys rest := fun hm => h (by simp [keys] at hm ⊢; exact Or.inr hm)
    cases p with
    | mk k' v' =>
      simp only [dictInsert, if_neg hp, List.cons_append]
      rw [ih hrest]

theorem length_dictInsert_of_mem {α : Type} {m : List (Nat × α)} {k : Nat} (v : α)
    (h : k ∈ keys m) : (dictInsert m k v).length = m.length := by
  induction m with
  | nil => simp [keys] at h
  | cons p rest ih =>
    cases p with
    | mk k' v' =>
      by_cases hp : k' = k
      · simp [dictInsert, hp]
      · have hrest : k ∈ keys rest := by
          rcases (by simpa [keys] using h) with hk | hk
          · exact absurd hk.symm hp
          · simpa [keys] using hk
        simp only [dictInsert, if_neg hp, List.length_cons]
        rw [ih hrest]

theorem keys_dictInsert_of_mem {α : Type} {m : List (Nat × α)} {k : Nat} (v : α)
    (h : k ∈ keys m) : keys (dictInsert m k v) = keys m := by
  induction m with
  | nil => simp [keys] at h
  | cons p rest ih =>
    cases p with
    | mk k' v' =>
      by_cases hp : k' = k
      · simp [dictInsert, hp, keys]
      · have hrest : k ∈ keys rest := by
          rcases (by simpa [keys] using h) with hk | hk
          · exact absurd hk.symm hp
          · simpa [keys] using hk
        have hih := ih hrest
        simp only [dictInsert, if_neg hp, keys, List.map_cons] at hih ⊢
        rw [hih]

theorem dictGet_dictInsert_self {α : Type} (m : List (Nat × α)) (k : Nat) (v : α) :
    dictGet (dictInsert m k v) k = some v := by
  induction m with
  | nil => simp [dictInsert, dictGet]
  | cons p rest ih =>
    cases p with
    | mk k' v' =>
      by_cases hp : k' = k
      · simp [dictInsert, hp, dictGet]
      · simp [dictInsert, hp, dictGet, ih]

theorem dictGet_dictInsert_ne {α : Type} (m : List (Nat × α)) (k j : Nat) (v : α)
    (hne : j ≠ k) : dictGet (dictInsert m k v) j = dictGet m j := by
  have hkj : ¬ k = j := fun h => hne h.symm
  induction m with
  | nil => simp [dictInsert, dictGet, hkj]
  | cons p rest ih =>
    cases p with
    | mk k' v' =>
      by_cases hp : k' = k
      · simp [dictInsert, hp, dictGet, hkj]
      · by_cases hj : k' = j
        · have hjk : ¬ j = k := hne
          simp [dictInsert, hp, dictGet, hj, hjk]
        · simp [dictInsert, hp, dictGet, hj, ih]

/-- For a map built from a list of keys by tabulating a function, lookup
returns the tabulated value exactly on the listed keys (the first matching
entry determines the result, and every entry for key `i` holds `f i`). -/
theorem dictGet_map_tabulate {α : Type} (f : Nat → α) (l : List Nat) (j : Nat) :
    dictGet (l.map (fun i => (i, f i))) j = if j ∈ l then some (f j) else none := by
  induction l with
  | nil => simp [dictGet]
  | cons i rest ih =>
    by_cases hj : i = j
    · subst hj; simp [dictGet]
    · simp only [List.map_cons, dictGet, hj, if_false, ih, List.mem_cons]
      have : ¬ j = i := fun h => hj h.symm
      simp [this]

end PyDict

namespace PyDict

theorem foldl_dictInsert_fresh {α : Type} (f : Nat → α) :
    ∀ (l : List Nat) (m : List (Nat × α)), (∀ i ∈ l, i ∉ keys m) → l.Nodup →
      l.foldl (fun acc i => dictInsert acc i (f i)) m = m ++ l.map (fun i => (i, f i))
  | [], m, _, _ => by simp
  | i :: rest, m, hfresh, hnodup => by
    have hstep : dictInsert m i (f i) = m ++ [(i, f i)] :=
      dictInsert_of_not_mem (f i) (hfresh i (by simp))
    have hnodup' := (List.nodup_cons.mp hnodup).2
    have hni := (List.nodup_cons.mp hnodup).1
    have hfresh' : ∀ j ∈ rest, j ∉ keys (m ++ [(i, f i)]) := by
      intro j hj hmem
      rw [keys, List.map_append] at hmem
      rcases List.mem_append.mp hmem with hm | hm
      · exact hfresh j (by simp [hj]) hm
      · simp at hm
        exact hni (hm ▸ hj)
    calc (i :: rest).foldl (fun acc k => dictInsert acc k (f k)) m
        = rest.foldl (fun acc k => dictInsert acc k (f k)) (m ++ [(i, f i)]) := by
          simp [List.foldl_cons, hstep]
      _ = (m ++ [(i, f i)]) ++ rest.map (fun k => (k, f k)) :=
          foldl_dictInsert_fresh f rest (m ++ [(i, f i)]) hfresh' hnodup'
      _ = m ++ (i :: rest).map (fun k => (k, f k)) := by simp

end PyDict

namespace LocalStorageProvider

theorem upload_chunk_chunkFiles (st : LocalState) (media_id : String)
    (i total : Nat) (data : List Nat) :
    (upload_chunk st media_id i total data).1.chunkFiles =
      dictInsert st.chunkFiles i data := by
  by_cases h : total = 0 <;> simp [upload_chunk, h]

theorem upload_chunk_chunksOf (st : LocalState) (media_id : String)
    (i total : Nat) (data : List Nat) (h : total ≠ 0) :
    chunksOf (upload_chunk st media_id i total data).1 =
      dictInsert (chunksOf st) i { size := data.length, path := i } := by
  simp [upload_chunk, chunksOf, _load_metadata, h]

theorem upload_chunk_chunks_isSome (st : LocalState) (media_id : String)
    (i total : Nat) (data : List Nat) (h : total ≠ 0) :
    ((_load_metadata (upload_chunk st media_id i total data).1).chunks).isSome = true := by
  simp [upload_chunk, _load_metadata, h]

theorem uploadAll_chunkFiles (media_id : String) (data : Nat → List Nat) (total : Nat) :
    ∀ (l : List Nat) (st : LocalState),
      (uploadAll media_id data total l st).chunkFiles =
        l.foldl (fun F i => dictInsert F i (data i)) st.chunkFiles
  | [], st => by simp [uploadAll]
  | i :: rest, st => by
    rw [uploadAll, uploadAll_chunkFiles media_id data total rest, List.foldl_cons,
      upload_chunk_chunkFiles]

theorem uploadAll_chunksOf (media_id : String) (data : Nat → List Nat) (total : Nat)
    (h : total ≠ 0) :
    ∀ (l : List Nat) (st : LocalState),
      chunksOf (uploadAll media_id data total l st) =
        l.foldl (fun cm i => dictInsert cm i { size := (data i).length, path := i })
          (chunksOf st)
  | [], st => by simp [uploadAll]
  | i :: rest, st => by
    rw [uploadAll, uploadAll_chunksOf media_id data total h rest, List.foldl_cons,
      upload_chunk_chunksOf st media_id i total (data i) h]

theorem uploadAll_chunks_isSome (media_id : String) (data : Nat → List Nat) (total : Nat)
    (h : total ≠ 0) :
    ∀ (l : List Nat) (st : LocalState), l ≠ [] →
      ((_load_metadata (uploadAll media_id data total l st)).chunks).isSome = true
  | [], _, hne => absurd rfl hne
  | i :: rest, st, _ => by
    match hr : rest with
    | [] =>
      rw [uploadAll, uploadAll]
      exact upload_chunk_chunks_isSome st media_id i total (data i) h
    | j :: rest' =>
      rw [uploadAll]
      exact uploadAll_chunks_isSome media_id data total h (j :: rest') _ (by simp)

theorem readChunksLoop_ok (F : List (Nat × List Nat)) (cm : List (Nat × ChunkInfo))
    (data : Nat → List Nat) (info : Nat → ChunkInfo) :
    ∀ l : List Nat, (∀ i ∈ l, dictGet cm i = some (info i)) →
      (∀ i ∈ l, dictGet F (info i).path = some (data i)) →
      readChunksLoop F cm l = ((l.map data).flatten, none)
  | [], _, _ => by simp [readChunksLoop]
  | i :: rest, hcm, hF => by
    have h1 : dictGet cm i = some (info i) := hcm i (by simp)
    have h2 : dictGet F (info i).path = some (data i) := hF i (by simp)
    have ih := readChunksLoop_ok F cm data info rest
      (fun j hj => hcm j (by simp [hj])) (fun j hj => hF j (by simp [hj]))
    simp [readChunksLoop, h1, h2, ih]

theorem readChunksLoop_missing (F : List (Nat × List Nat)) (cm : List (Nat × ChunkInfo))
    (hfiles : ∀ i info, dictGet cm i = some info → (dictGet F info.path).isSome = true) :
    ∀ l : List Nat, (∃ i ∈ l, dictGet cm i = none) →
      ∃ j, (readChunksLoop F cm l).2 = some (ConcatError.missingIndex j)
  | [], hmiss => by simp at hmiss
  | i :: rest, hmiss => by
    match hcm : dictGet cm i with
    | none => exact ⟨i, by simp [readChunksLoop, hcm]⟩
    | some info =>
      have hfile := hfiles i info hcm
      match hF : dictGet F info.path with
      | none => rw [hF] at hfile; simp at hfile
      | some bytes =>
        have hmiss' : ∃ j ∈ rest, dictGet cm j = none := by
          rcases hmiss with ⟨j, hj, hjn⟩
          rcases List.mem_cons.mp hj with rfl | hj'
          · rw [hcm] at hjn; cases hjn
          · exact ⟨j, hj', hjn⟩
        rcases readChunksLoop_missing F cm hfiles rest hmiss' with ⟨j, hjr⟩
        exact ⟨j, by simp [readChunksLoop, hcm, hF, hjr]⟩

end LocalStorageProvider

namespace LocalStorageProvider

/-- C1: for every chunk count `N ≥ 1` and every permutation of `0..N-1`, if
each of the `N` chunks is uploaded exactly once via `upload_chunk` in the
permuted order, then `complete_upload` succeeds and the finalized blob is the
byte concatenation of the chunk contents in ascending index order — the blob
is independent of the arrival order. -/
theorem chunk_order_independence (media_id file_type user_id : String)
    (file_size : Nat) (N : Nat) (hN : 0 < N) (perm : List Nat)
    (hperm : List.Perm perm (List.range N)) (data : Nat → List Nat)
    (total_size : Nat) :
    (complete_upload (uploadAll media_id data N perm
        (generate_upload_url initialState media_id file_type file_size user_id).1)
        media_id N total_size none).2 =
      Except.ok { media_id := media_id, status := "processing", progress := 0 } ∧
    (complete_upload (uploadAll media_id data N perm
        (generate_upload_url initialState media_id file_type file_size user_id).1)
        media_id N total_size none).1.finalFile =
      some (((List.range N).map data).flatten) := by
  have hN0 : N ≠ 0 := Nat.pos_iff_ne_zero.mp hN
  have hnodup : perm.Nodup := hperm.nodup_iff.mpr (List.nodup_range N)
  have hmem : ∀ i, i ∈ perm ↔ i < N := by
    intro i; rw [hperm.mem_iff, List.mem_range]
  have hlen : perm.length = N := by
    rw [hperm.length_eq, List.length_range]
  set st0 := (generate_upload_url initialState media_id file_type file_size user_id).1 with hst0
  have hcf0 : st0.chunkFiles = [] := rfl
  have hcm0 : chunksOf st0 = [] := rfl
  set st1 := uploadAll media_id data N perm st0 with hst1
  have hcf : st1.chunkFiles = perm.map (fun i => (i, data i)) := by
    rw [hst1, uploadAll_chunkFiles, hcf0,
      foldl_dictInsert_fresh (fun i => data i) perm [] (by simp [keys]) hnodup]
    simp
  have hcm : chunksOf st1 = perm.map (fun i => (i, ({ size := (data i).length, path := i } : ChunkInfo))) := by
    rw [hst1, uploadAll_chunksOf media_id data N hN0, hcm0,
      foldl_dictInsert_fresh (fun i => ({ size := (data i).length, path := i } : ChunkInfo))
        perm [] (by simp [keys]) hnodup]
    simp
  have hpne : perm ≠ [] := by
    intro h; rw [h] at hlen; simp at hlen; exact hN0 hlen.symm
  have hsome : ((_load_metadata st1).chunks).isSome = true := by
    rw [hst1]; exact uploadAll_chunks_isSome media_id data N hN0 perm st0 hpne
  rcases Option.isSome_iff_exists.mp hsome with ⟨cmv, hcmv⟩
  have hchunks : (_load_metadata st1).chunks = some (chunksOf st1) := by
    rw [hcmv, chunksOf, hcmv]; rfl
  have hcount : (chunksOf st1).length = N := by
    rw [hcm]; simp [hlen]
  have hread : readChunksLoop st1.chunkFiles (chunksOf st1) (List.range N) =
      (((List.range N).map data).flatten, none) := by
    apply readChunksLoop_ok st1.chunkFiles (chunksOf st1) data
      (fun i => { size := (data i).length, path := i })
    · intro i hi
      rw [hcm, dictGet_map_tabulate]
      simp [(hmem i).mpr (List.mem_range.mp hi)]
    · intro i hi
      rw [hcf]
      show dictGet (perm.map (fun j => (j, data j))) i = some (data i)
      rw [dictGet_map_tabulate]
      simp [(hmem i).mpr (List.mem_range.mp hi)]
  have hcond : ¬ ((_load_metadata st1).chunks.isNone ∨
      ((_load_metadata st1).chunks.getD []).length ≠ N) := by
    push_neg
    constructor
    · rw [hchunks]; simp
    · show (chunksOf st1).length = N
      exact hcount
  constructor
  · simp only [complete_upload, if_neg hcond]
    rw [show ((_load_metadata st1).chunks.getD []) = chunksOf st1 from rfl, hread]
  · simp only [complete_upload, if_neg hcond]
    rw [show ((_load_metadata st1).chunks.getD []) = chunksOf st1 from rfl, hread]

/-- Witness for C1 at Scenario A: three chunks of sizes 100, 100 and 50
bytes uploaded in the order 2, 0, 1; `complete_upload` succeeds and the
250-byte blob is the ascending-index concatenation. -/
theorem chunk_order_independence_witness :
    0 < 3 ∧ List.Perm [2, 0, 1] (List.range 3) ∧
    ((complete_upload (uploadAll "m1"
        (fun i => if i = 0 then List.replicate 100 5
                  else if i = 1 then List.replicate 100 6 else List.replicate 50 7)
        3 [2, 0, 1]
        (generate_upload_url initialState "m1" "audio/wav" 250 "u1").1)
        "m1" 3 250 none).2 =
      Except.ok { media_id := "m1", status := "processing", progress := 0 } ∧
     (complete_upload (uploadAll "m1"
        (fun i => if i = 0 then List.replicate 100 5
                  else if i = 1 then List.replicate 100 6 else List.replicate 50 7)
        3 [2, 0, 1]
        (generate_upload_url initialState "m1" "audio/wav" 250 "u1").1)
        "m1" 3 250 none).1.finalFile =
      some (((List.range 3).map
        (fun i => if i = 0 then List.replicate 100 5
                  else if i = 1 then List.replicate 100 6 else List.replicate 50 7)).flatten)) ∧
    (((List.range 3).map
        (fun i => if i = 0 then List.replicate 100 5
                  else if i = 1 then List.replicate 100 6 else List.replicate 50 7)).flatten).length = 250 :=
  ⟨by decide, by decide,
   chunk_order_independence "m1" "audio/wav" "u1" 250 3 (by decide) [2, 0, 1] (by decide)
     (fun i => if i = 0 then List.replicate 100 5
               else if i = 1 then List.replicate 100 6 else List.replicate 50 7) 250,
   by decide⟩

end LocalStorageProvider

namespace LocalStorageProvider

/-- C2: when `complete_upload` is called for a media id whose stored
chunk-index set does not equal `{0..total-1}` — the stored chunk count
differs from `total`, or the count matches but some index in `[0, total)` is
absent — the call returns an error result (the chunk-mismatch error dict)
and the persisted metadata record, hence the stored `pending` status, is not
modified.  The hypothesis `hfiles` is the reachable-state invariant that
every recorded chunk entry points to an existing chunk file. -/
theorem complete_upload_chunk_mismatch (st : LocalState) (media_id : String)
    (total_chunks total_size : Nat) (md5_hash : Option String)
    (hfiles : ∀ i info, dictGet (chunksOf st) i = some info →
      (dictGet st.chunkFiles info.path).isSome = true)
    (hbad : (_load_metadata st).chunks.isNone = true ∨
      (chunksOf st).length ≠ total_chunks ∨
      ∃ i ∈ List.range total_chunks, dictGet (chunksOf st) i = none) :
    (∃ r, (complete_upload st media_id total_chunks total_size md5_hash).2 =
        Except.ok r ∧ r.status = "error") ∧
    (complete_upload st media_id total_chunks total_size md5_hash).1.metadata =
      st.metadata ∧
    (_load_metadata (complete_upload st media_id total_chunks total_size md5_hash).1).status =
      (_load_metadata st).status := by
  by_cases h1 : (_load_metadata st).chunks.isNone ∨
      ((_load_metadata st).chunks.getD []).length ≠ total_chunks
  · have hres : (complete_upload st media_id total_chunks total_size md5_hash).2 =
        Except.ok
          { media_id := media_id, status := "error", progress := 0,
            error := some ("チャンク数が一致しません。期待: " ++ toString total_chunks ++
              ", 実際: " ++ toString ((_load_metadata st).chunks.getD []).length) } := by
      simp only [complete_upload, if_pos h1]
    refine ⟨⟨_, hres, rfl⟩, ?_, ?_⟩
    · simp only [complete_upload, if_pos h1]
    · simp only [complete_upload, if_pos h1]
  · push_neg at h1
    have hmiss : ∃ i ∈ List.range total_chunks, dictGet (chunksOf st) i = none := by
      rcases hbad with hb | hb | hb
      · exact absurd (by simpa using hb) (by simpa using h1.1)
      · exact absurd h1.2 hb
      · exact hb
    rcases readChunksLoop_missing st.chunkFiles (chunksOf st) hfiles
      (List.range total_chunks) hmiss with ⟨j, hjr⟩
    have hcond : ¬ ((_load_metadata st).chunks.isNone ∨
        ((_load_metadata st).chunks.getD []).length ≠ total_chunks) := by
      push_neg; exact h1
    have hres : (complete_upload st media_id total_chunks total_size md5_hash).2 =
        Except.ok
          { media_id := media_id, status := "error", progress := 0,
            error := some ("チャンク " ++ toString j ++ " が見つかりません") } := by
      simp only [complete_upload, if_neg hcond]
      rw [show ((_load_metadata st).chunks.getD []) = chunksOf st from rfl, hjr]
    refine ⟨⟨_, hres, rfl⟩, ?_, ?_⟩
    · simp only [complete_upload, if_neg hcond]
      rw [show ((_load_metadata st).chunks.getD []) = chunksOf st from rfl, hjr]
    · simp only [complete_upload, if_neg hcond]
      rw [show ((_load_metadata st).chunks.getD []) = chunksOf st from rfl, hjr]
      rfl

/-- Witness for C2 at Scenario B: two chunks stored, `complete_upload`
called with `total = 3`; the call returns the chunk-mismatch error dict and
the stored status remains `pending`. -/
theorem complete_upload_chunk_mismatch_witness :
    ((∀ i info, dictGet (chunksOf (uploadAll "m1" (fun _ => [1, 2]) 3 [0, 1]
        (generate_upload_url initialState "m1" "audio/wav" 100 "u1").1)) i = some info →
      (dictGet (uploadAll "m1" (fun _ => [1, 2]) 3 [0, 1]
        (generate_upload_url initialState "m1" "audio/wav" 100 "u1").1).chunkFiles
        info.path).isSome = true) ∧
     (chunksOf (uploadAll "m1" (fun _ => [1, 2]) 3 [0, 1]
        (generate_upload_url initialState "m1" "audio/wav" 100 "u1").1)).length ≠ 3) ∧
    (∃ r, (complete_upload (uploadAll "m1" (fun _ => [1, 2]) 3 [0, 1]
        (generate_upload_url initialState "m1" "audio/wav" 100 "u1").1)
        "m1" 3 100 none).2 = Except.ok r ∧ r.status = "error") ∧
    (_load_metadata (complete_upload (uploadAll "m1" (fun _ => [1, 2]) 3 [0, 1]
        (generate_upload_url initialState "m1" "audio/wav" 100 "u1").1)
        "m1" 3 100 none).1).status = some "pending" := by
  have hfiles : ∀ i info, dictGet (chunksOf (uploadAll "m1" (fun _ => [1, 2]) 3 [0, 1]
      (generate_upload_url initialState "m1" "audio/wav" 100 "u1").1)) i = some info →
      (dictGet (uploadAll "m1" (fun _ => [1, 2]) 3 [0, 1]
        (generate_upload_url initialState "m1" "audio/wav" 100 "u1").1).chunkFiles
        info.path).isSome = true := by
    intro i info h
    match i, info, h with
    | 0, _, h => cases h; decide
    | 1, _, h => cases h; decide
    | (n+2), info, h => cases h
  have hcount : (chunksOf (uploadAll "m1" (fun _ => [1, 2]) 3 [0, 1]
      (generate_upload_url initialState "m1" "audio/wav" 100 "u1").1)).length ≠ 3 := by decide
  have hmain := complete_upload_chunk_mismatch (uploadAll "m1" (fun _ => [1, 2]) 3 [0, 1]
      (generate_upload_url initialState "m1" "audio/wav" 100 "u1").1)
      "m1" 3 100 none hfiles (Or.inr (Or.inl hcount))
  refine ⟨⟨hfiles, hcount⟩, hmain.1, ?_⟩
  rw [hmain.2.2]
  decide

end LocalStorageProvider

namespace PyDict

theorem nodup_keys_dictInsert {α : Type} {m : List (Nat × α)} {k : Nat} (v : α)
    (h : (keys m).Nodup) : (keys (dictInsert m k v)).Nodup := by
  by_cases hk : k ∈ keys m
  · rw [keys_dictInsert_of_mem v hk]; exact h
  · rw [dictInsert_of_not_mem v hk, keys, List.map_append]
    simp only [List.map_cons, List.map_nil]
    rw [List.nodup_append]
    exact ⟨h, by simp, by simpa [keys] using hk⟩

end PyDict

namespace LocalStorageProvider

/-- C9 counterexample: a file whose size equals
`MAX_DIRECT_UPLOAD_SIZE` (5242880) is given direct mode
(`chunk_upload_enabled = false`), not chunked mode as the claim states:
the source tests `file_size > settings.MAX_DIRECT_UPLOAD_SIZE`. -/
theorem generate_upload_url_threshold_counterexample :
    (generate_upload_url initialState "m1" "audio/wav" MAX_DIRECT_UPLOAD_SIZE "u1").2.chunk_upload_enabled = false ∧
    ¬ (MAX_DIRECT_UPLOAD_SIZE < MAX_DIRECT_UPLOAD_SIZE) := by
  constructor
  · rfl
  · omega

/-- C9 amended: `generate_upload_url` returns chunked mode exactly when
`file_size` strictly exceeds `MAX_DIRECT_UPLOAD_SIZE`; a size equal to the
threshold (and any smaller size) gets direct mode. -/
theorem generate_upload_url_threshold (st : LocalState)
    (media_id file_type user_id : String) (file_size : Nat) :
    (generate_upload_url st media_id file_type file_size user_id).2.chunk_upload_enabled = true ↔
      MAX_DIRECT_UPLOAD_SIZE < file_size := by
  simp [generate_upload_url]

/-- C5 counterexample: after a first chunk records `total_chunks = 2`, a
second `upload_chunk` call declaring `total_chunks = 3` for the same media
id is accepted (status `success`) and silently overwrites the recorded
total with 3 — no contradiction check exists. -/
theorem upload_chunk_total_not_validated_counterexample :
    (_load_metadata (upload_chunk
        (generate_upload_url initialState "m1" "audio/wav" 100 "u1").1
        "m1" 0 2 [1]).1).total_chunks = some 2 ∧
    (upload_chunk (upload_chunk
        (generate_upload_url initialState "m1" "audio/wav" 100 "u1").1
        "m1" 0 2 [1]).1 "m1" 1 3 [2]).2 =
      Except.ok { media_id := "m1", chunk_index := 1, received_bytes := 1, status := "success" } ∧
    (_load_metadata (upload_chunk (upload_chunk
        (generate_upload_url initialState "m1" "audio/wav" 100 "u1").1
        "m1" 0 2 [1]).1 "m1" 1 3 [2]).1).total_chunks = some 3 ∧
    some 3 ≠ (some 2 : Option Nat) := by
  refine ⟨rfl, rfl, rfl, by decide⟩

/-- C5 amended: `upload_chunk` performs no validation of `total_chunks`
against the previously recorded value: every call with `total_chunks ≥ 1`
succeeds with status `success` and overwrites the recorded total with its
argument; the stored `upload_progress` equals exactly (number of distinct
received chunk indices) / (the declared total). -/
theorem upload_chunk_no_total_validation (st : LocalState) (media_id : String)
    (chunk_index total_chunks : Nat) (chunk_data : List Nat)
    (htotal : 0 < total_chunks) (hnodup : (keys (chunksOf st)).Nodup) :
    (upload_chunk st media_id chunk_index total_chunks chunk_data).2 =
      Except.ok { media_id := media_id, chunk_index := chunk_index,
                  received_bytes := chunk_data.length, status := "success" } ∧
    (_load_metadata (upload_chunk st media_id chunk_index total_chunks chunk_data).1).total_chunks =
      some total_chunks ∧
    (keys (chunksOf (upload_chunk st media_id chunk_index total_chunks chunk_data).1)).Nodup ∧
    (_load_metadata (upload_chunk st media_id chunk_index total_chunks chunk_data).1).upload_progress =
      some (((chunksOf (upload_chunk st media_id chunk_index total_chunks chunk_data).1).length : Rat) /
        (total_chunks : Rat)) := by
  have h0 : total_chunks ≠ 0 := Nat.pos_iff_ne_zero.mp htotal
  refine ⟨?_, ?_, ?_, ?_⟩
  · simp [upload_chunk, h0]
  · simp [upload_chunk, _load_metadata, h0]
  · rw [upload_chunk_chunksOf st media_id chunk_index total_chunks chunk_data h0]
    exact nodup_keys_dictInsert _ hnodup
  · rw [upload_chunk_chunksOf st media_id chunk_index total_chunks chunk_data h0]
    simp [upload_chunk, _load_metadata, h0, chunksOf]

/-- Witness for C5 amended at a concrete state: a second upload with a
different declared total is accepted and progress is 2/3. -/
theorem upload_chunk_no_total_validation_witness :
    (0 < 3 ∧ (keys (chunksOf (upload_chunk
      (generate_upload_url initialState "m1" "audio/wav" 100 "u1").1
      "m1" 0 2 [1]).1)).Nodup) ∧
    (upload_chunk (upload_chunk
      (generate_upload_url initialState "m1" "audio/wav" 100 "u1").1
      "m1" 0 2 [1]).1 "m1" 1 3 [2]).2 =
      Except.ok { media_id := "m1", chunk_index := 1, received_bytes := 1, status := "success" } ∧
    (_load_metadata (upload_chunk (upload_chunk
      (generate_upload_url initialState "m1" "audio/wav" 100 "u1").1
      "m1" 0 2 [1]).1 "m1" 1 3 [2]).1).upload_progress =
      some (((chunksOf (upload_chunk (upload_chunk
        (generate_upload_url initialState "m1" "audio/wav" 100 "u1").1
        "m1" 0 2 [1]).1 "m1" 1 3 [2]).1).length : Rat) / (3 : Rat)) := by
  have hmain := upload_chunk_no_total_validation (upload_chunk
    (generate_upload_url initialState "m1" "audio/wav" 100 "u1").1
    "m1" 0 2 [1]).1 "m1" 1 3 [2] (by decide) (by decide)
  exact ⟨⟨by decide, by decide⟩, hmain.1, hmain.2.2.2⟩

/-- C8: re-sending a chunk index `k` that was already received (before
finalize) replaces both the stored chunk bytes and the bookkeeping entry
for `k`: the chunk map keeps its keys (no duplicate entry), its size stays
`N` instead of `N + 1`, the entry for `k` now records the new size, other
entries are untouched, and the chunk file for `k` — the bytes a later
`complete_upload` concatenates — holds the newest data. -/
theorem upload_chunk_resend_overwrites (st : LocalState) (media_id : String)
    (k total_chunks : Nat) (new_data : List Nat)
    (htotal : 0 < total_chunks) (hmem : k ∈ keys (chunksOf st)) :
    dictGet (upload_chunk st media_id k total_chunks new_data).1.chunkFiles k =
      some new_data ∧
    (chunksOf (upload_chunk st media_id k total_chunks new_data).1).length =
      (chunksOf st).length ∧
    keys (chunksOf (upload_chunk st media_id k total_chunks new_data).1) =
      keys (chunksOf st) ∧
    dictGet (chunksOf (upload_chunk st media_id k total_chunks new_data).1) k =
      some { size := new_data.length, path := k } ∧
    (∀ j, j ≠ k →
      dictGet (chunksOf (upload_chunk st media_id k total_chunks new_data).1) j =
        dictGet (chunksOf st) j) := by
  have h0 : total_chunks ≠ 0 := Nat.pos_iff_ne_zero.mp htotal
  refine ⟨?_, ?_, ?_, ?_, ?_⟩
  · rw [upload_chunk_chunkFiles]
    exact dictGet_dictInsert_self st.chunkFiles k new_data
  · rw [upload_chunk_chunksOf st media_id k total_chunks new_data h0]
    exact length_dictInsert_of_mem _ hmem
  · rw [upload_chunk_chunksOf st media_id k total_chunks new_data h0]
    exact keys_dictInsert_of_mem _ hmem
  · rw [upload_chunk_chunksOf st media_id k total_chunks new_data h0]
    exact dictGet_dictInsert_self _ k _
  · intro j hj
    rw [upload_chunk_chunksOf st media_id k total_chunks new_data h0]
    exact dictGet_dictInsert_ne _ k j _ hj

/-- Witness for C8: chunk 0 is uploaded twice with different bytes; the map
still has one entry, and the chunk file holds the second payload. -/
theorem upload_chunk_resend_overwrites_witness :
    (0 < 2 ∧ 0 ∈ keys (chunksOf (upload_chunk
      (generate_upload_url initialState "m1" "audio/wav" 100 "u1").1
      "m1" 0 2 [1, 2]).1)) ∧
    dictGet (upload_chunk (upload_chunk
      (generate_upload_url initialState "m1" "audio/wav" 100 "u1").1
      "m1" 0 2 [1, 2]).1 "m1" 0 2 [9, 9, 9]).1.chunkFiles 0 = some [9, 9, 9] ∧
    (chunksOf (upload_chunk (upload_chunk
      (generate_upload_url initialState "m1" "audio/wav" 100 "u1").1
      "m1" 0 2 [1, 2]).1 "m1" 0 2 [9, 9, 9]).1).length =
      (chunksOf (upload_chunk
        (generate_upload_url initialState "m1" "audio/wav" 100 "u1").1
        "m1" 0 2 [1, 2]).1).length := by
  have hmain := upload_chunk_resend_overwrites (upload_chunk
    (generate_upload_url initialState "m1" "audio/wav" 100 "u1").1
    "m1" 0 2 [1, 2]).1 "m1" 0 2 [9, 9, 9] (by decide) (by decide)
  exact ⟨⟨by decide, by decide⟩, hmain.1, hmain.2.1⟩

/-- C10: `upload_chunk` is well-defined only for `total_chunks ≥ 1`.  With
`total_chunks = 0` the progress computation `len(chunks) / total_chunks`
raises `ZeroDivisionError`; the exception occurs after the chunk bytes have
been written to the chunk file but before `_save_metadata`, so the metadata
sidecar is unchanged.  For every `total_chunks ≥ 1` the call returns a
success result instead. -/
theorem upload_chunk_zero_total_raises (st : LocalState) (media_id : String)
    (chunk_index : Nat) (chunk_data : List Nat) :
    (upload_chunk st media_id chunk_index 0 chunk_data).2 =
      Except.error "ZeroDivisionError" ∧
    dictGet (upload_chunk st media_id chunk_index 0 chunk_data).1.chunkFiles
      chunk_index = some chunk_data ∧
    (upload_chunk st media_id chunk_index 0 chunk_data).1.metadata = st.metadata ∧
    (∀ total_chunks, 0 < total_chunks →
      (upload_chunk st media_id chunk_index total_chunks chunk_data).2 =
        Except.ok { media_id := media_id, chunk_index := chunk_index,
                    received_bytes := chunk_data.length, status := "success" }) := by
  refine ⟨?_, ?_, ?_, ?_⟩
  · simp [upload_chunk]
  · rw [upload_chunk_chunkFiles]
    exact dictGet_dictInsert_self st.chunkFiles chunk_index chunk_data
  · simp [upload_chunk]
  · intro total htotal
    simp [upload_chunk, Nat.pos_iff_ne_zero.mp htotal]

/-- Witness for C10 at a concrete state. -/
theorem upload_chunk_zero_total_raises_witness :
    (upload_chunk (generate_upload_url initialState "m1" "audio/wav" 100 "u1").1
      "m1" 0 0 [1, 2, 3]).2 = Except.error "ZeroDivisionError" ∧
    (upload_chunk (generate_upload_url initialState "m1" "audio/wav" 100 "u1").1
      "m1" 0 0 [1, 2, 3]).1.metadata =
      (generate_upload_url initialState "m1" "audio/wav" 100 "u1").1.metadata ∧
    (0 < 1 ∧ (upload_chunk (generate_upload_url initialState "m1" "audio/wav" 100 "u1").1
      "m1" 0 1 [1, 2, 3]).2 =
      Except.ok { media_id := "m1", chunk_index := 0,
                  received_bytes := 3, status := "success" }) := by
  have hmain := upload_chunk_zero_total_raises
    (generate_upload_url initialState "m1" "audio/wav" 100 "u1").1 "m1" 0 [1, 2, 3]
  exact ⟨hmain.1, hmain.2.2.1, by decide, hmain.2.2.2 1 (by decide)⟩

end LocalStorageProvider

namespace LocalStorageProvider

/-- C6 counterexample: after a successful `complete_upload` of a one-chunk
upload, the stored chunk object for index 0 is still present — finalization
does not delete the chunk remnants. -/
theorem complete_upload_chunk_remnants_counterexample :
    (complete_upload (upload_chunk
        (generate_upload_url initialState "m1" "audio/wav" 3 "u1").1
        "m1" 0 1 [1, 2, 3]).1 "m1" 1 3 none).2 =
      Except.ok { media_id := "m1", status := "processing", progress := 0 } ∧
    (complete_upload (upload_chunk
        (generate_upload_url initialState "m1" "audio/wav" 3 "u1").1
        "m1" 0 1 [1, 2, 3]).1 "m1" 1 3 none).1.chunkFiles = [(0, [1, 2, 3])] ∧
    [(0, ([1, 2, 3] : List Nat))] ≠ ([] : List (Nat × List Nat)) := by
  refine ⟨rfl, rfl, by decide⟩

theorem delete_file_of_status_some (st : LocalState) (media_id : String)
    (h : (_load_metadata st).status.isSome = true) :
    (delete_file st media_id).1.chunkFiles = [] ∧ (delete_file st media_id).2 = true := by
  have hne : ¬ (_load_metadata st = {}) := by
    intro he
    rw [he] at h
    simp at h
  simp [delete_file, hne]

/-- C6 amended: a successful `complete_upload` leaves every stored per-chunk
object untouched (the chunk store after the call is exactly the chunk store
before it); it records the backend reference in the metadata (`file_path`
is set) rather than returning it, and the chunk remnants are removed only by
the explicit `delete_file` operation, which empties the chunk directory. -/
theorem complete_upload_keeps_chunk_remnants (st : LocalState) (media_id : String)
    (total_chunks total_size : Nat) (md5_hash : Option String)
    (r : CompleteUploadResult)
    (hok : (complete_upload st media_id total_chunks total_size md5_hash).2 =
      Except.ok r)
    (hproc : r.status = "processing") :
    (complete_upload st media_id total_chunks total_size md5_hash).1.chunkFiles =
      st.chunkFiles ∧
    (_load_metadata (complete_upload st media_id total_chunks total_size
      md5_hash).1).file_path.isSome = true ∧
    (delete_file (complete_upload st media_id total_chunks total_size md5_hash).1
      media_id).1.chunkFiles = [] ∧
    (delete_file (complete_upload st media_id total_chunks total_size md5_hash).1
      media_id).2 = true := by
  by_cases hcond : (_load_metadata st).chunks.isNone ∨
      ((_load_metadata st).chunks.getD []).length ≠ total_chunks
  · exfalso
    have hthis := hok
    simp only [complete_upload, if_pos hcond] at hthis
    rw [← Except.ok.inj hthis] at hproc
    simp at hproc
  · cases hread : (readChunksLoop st.chunkFiles ((_load_metadata st).chunks.getD [])
        (List.range total_chunks)).2 with
    | some ce =>
      cases ce with
      | missingIndex i =>
        exfalso
        have hthis := hok
        simp only [complete_upload, if_neg hcond] at hthis
        rw [hread] at hthis
        rw [← Except.ok.inj hthis] at hproc
        simp at hproc
      | fileNotFound p =>
        exfalso
        have := hok
        simp only [complete_upload, if_neg hcond] at this
        rw [hread] at this
        cases this
    | none =>
      have hcf : (complete_upload st media_id total_chunks total_size md5_hash).1.chunkFiles =
          st.chunkFiles := by
        simp only [complete_upload, if_neg hcond, hread]
      have hfp : (_load_metadata (complete_upload st media_id total_chunks total_size
          md5_hash).1).file_path =
          some (media_id ++ "." ++ _get_extension_from_mimetype
            ((_load_metadata st).file_type.getD "application/octet-stream")) := by
        simp only [complete_upload, if_neg hcond, hread]
        rfl
      have hs : (_load_metadata (complete_upload st media_id total_chunks total_size
          md5_hash).1).status = some "processing" := by
        simp only [complete_upload, if_neg hcond, hread]
        rfl
      have hdel := delete_file_of_status_some
        (complete_upload st media_id total_chunks total_size md5_hash).1 media_id
        (by rw [hs]; rfl)
      exact ⟨hcf, by rw [hfp]; rfl, hdel.1, hdel.2⟩

/-- Witness for C6 amended at a concrete successful completion. -/
theorem complete_upload_keeps_chunk_remnants_witness :
    ((complete_upload (upload_chunk
        (generate_upload_url initialState "m2" "audio/wav" 3 "u1").1
        "m2" 0 1 [7, 8]).1 "m2" 1 2 none).2 =
      Except.ok { media_id := "m2", status := "processing", progress := 0 } ∧
     ({ media_id := "m2", status := "processing", progress := 0,
        error := none } : CompleteUploadResult).status = "processing") ∧
    (complete_upload (upload_chunk
        (generate_upload_url initialState "m2" "audio/wav" 3 "u1").1
        "m2" 0 1 [7, 8]).1 "m2" 1 2 none).1.chunkFiles =
      (upload_chunk (generate_upload_url initialState "m2" "audio/wav" 3 "u1").1
        "m2" 0 1 [7, 8]).1.chunkFiles ∧
    (delete_file (complete_upload (upload_chunk
        (generate_upload_url initialState "m2" "audio/wav" 3 "u1").1
        "m2" 0 1 [7, 8]).1 "m2" 1 2 none).1 "m2").1.chunkFiles = [] := by
  have hmain := complete_upload_keeps_chunk_remnants (upload_chunk
      (generate_upload_url initialState "m2" "audio/wav" 3 "u1").1
      "m2" 0 1 [7, 8]).1 "m2" 1 2 none
      { media_id := "m2", status := "processing", progress := 0 } rfl rfl
  exact ⟨⟨rfl, rfl⟩, hmain.1, hmain.2.2.1⟩

end LocalStorageProvider

namespace MediaWorker

/-- C4 counterexample: after one successful run of `_process_audio` there is
already a transcript row for `("m1", "google")`, yet a second successful run
inserts another one — the table then holds 2 rows for the key, not 1. -/
theorem process_audio_duplicate_counterexample :
    get_by_provider (_process_audio [] "m1" true
      (Except.ok { text := "t1", confidence := 1 })).1 "m1" "google" =
      some { media_asset_id := "m1", text := "t1", provider := "google", confidence := 1 } ∧
    countByProvider (_process_audio (_process_audio [] "m1" true
      (Except.ok { text := "t1", confidence := 1 })).1 "m1" true
      (Except.ok { text := "t2", confidence := 1 })).1 "m1" "google" = 2 ∧
    (2 : Nat) ≠ 1 := by
  refine ⟨rfl, rfl, by decide⟩

/-- C4 amended: `MediaWorker._process_audio` writes its transcript with a
plain `crud_transcript.create` and never consults `get_by_provider`, so a
successful run always appends one new row for `(media_asset_id, "google")`;
running the dispatcher to success twice for the same media asset therefore
leaves two derived records for the key, not one. -/
theorem process_audio_plain_insert (db : List TranscriptRec) (media_id : String)
    (r1 r2 : TranscriptionResult) :
    (_process_audio db media_id true (Except.ok r1)).1 =
      create db { media_asset_id := media_id, text := r1.text,
                  provider := "google", confidence := r1.confidence } ∧
    countByProvider (_process_audio db media_id true (Except.ok r1)).1
      media_id "google" = countByProvider db media_id "google" + 1 ∧
    countByProvider (_process_audio (_process_audio db media_id true
      (Except.ok r1)).1 media_id true (Except.ok r2)).1 media_id "google" =
      countByProvider db media_id "google" + 2 := by
  refine ⟨rfl, ?_, ?_⟩
  · simp [_process_audio, create, countByProvider, List.countP_append, List.countP_cons]
  · simp [_process_audio, create, countByProvider, List.countP_append, List.countP_cons]

end MediaWorker

namespace UrlImport

/-- C7: when the AI title-generation (enhance) step raises, the exception is
caught inside `_process_url_import`: the pipeline continues, the job reaches
status `completed` with progress 1, and its title is the default title taken
from the extraction stage (`extraction_result.get('title', 'Imported
Note')`). -/
theorem enhance_failure_falls_back (job : ImportJobInfo) (import_id : String)
    (er : ExtractionResult) (enhance : List Char → Except String String)
    (e : String) (auto_split split_enabled : Bool)
    (htext : er.text ≠ [])
    (hfail : enhance (er.text.take 500) = Except.error e) :
    (_process_url_import job import_id (Except.ok er) enhance true auto_split
      split_enabled).status = "completed" ∧
    (_process_url_import job import_id (Except.ok er) enhance true auto_split
      split_enabled).title = some (er.title.getD "Imported Note") ∧
    (_process_url_import job import_id (Except.ok er) enhance true auto_split
      split_enabled).progress = 1 := by
  refine ⟨?_, ?_, ?_⟩
  · simp [_process_url_import]
  · simp [_process_url_import, htext, hfail]
  · simp [_process_url_import]

/-- Witness for C7: a concrete import whose enhance step raises still
completes with the extracted default title. -/
theorem enhance_failure_falls_back_witness :
    ((['h', 'i'] : List Char) ≠ [] ∧
     (fun _ : List Char => (Except.error "AI down" : Except String String))
       ((['h', 'i'] : List Char).take 500) = Except.error "AI down") ∧
    (_process_url_import {} "i1" (Except.ok { text := ['h', 'i'], title := some "Page Title" })
      (fun _ => Except.error "AI down") true false true).status = "completed" ∧
    (_process_url_import {} "i1" (Except.ok { text := ['h', 'i'], title := some "Page Title" })
      (fun _ => Except.error "AI down") true false true).title = some "Page Title" := by
  have hmain := enhance_failure_falls_back {} "i1"
    { text := ['h', 'i'], title := some "Page Title" }
    (fun _ => Except.error "AI down") "AI down" false true (by decide) rfl
  exact ⟨⟨by decide, rfl⟩, hmain.1, hmain.2.1⟩

end UrlImport

namespace UrlImport

theorem splitBlankAux_nil (acc : List Char) : splitBlankAux [] acc = [acc.reverse] := by
  rw [splitBlankAux]

theorem splitBlankAux_cons_not_nl {c : Char} (hc : ¬ (c = '\n')) (rest acc : List Char) :
    splitBlankAux (c :: rest) acc = splitBlankAux rest (c :: acc) := by
  rw [splitBlankAux]
  simp [hc]

theorem splitBlankAux_cons_nl_some {rest post : List Char}
    (hsome : afterLastNl (rest.takeWhile pyIsSpace) = some post) (acc : List Char) :
    splitBlankAux ('\n' :: rest) acc =
      acc.reverse :: splitBlankAux (post ++ rest.dropWhile pyIsSpace) [] := by
  rw [splitBlankAux, if_pos rfl]
  split
  · rename_i hnone
    rw [hsome] at hnone
    cases hnone
  · rename_i post' hpost'
    rw [hsome] at hpost'
    cases hpost'
    rfl

theorem splitBlankAux_no_nl {l : List Char} (h : '\n' ∉ l) :
    ∀ acc, splitBlankAux l acc = [acc.reverse ++ l] := by
  induction l with
  | nil => intro acc; simp [splitBlankAux_nil]
  | cons c rest ih =>
    intro acc
    have hc : ¬ (c = '\n') := fun he => h (by simp [he])
    rw [splitBlankAux_cons_not_nl hc]
    rw [ih (fun hm => h (by simp [hm]))]
    simp

theorem splitBlankAux_append_no_nl {A : List Char} (hA : '\n' ∉ A) :
    ∀ (l acc : List Char), splitBlankAux (A ++ l) acc = splitBlankAux l (A.reverse ++ acc) := by
  induction A with
  | nil => intro l acc; simp
  | cons a A' ih =>
    intro l acc
    have ha : ¬ (a = '\n') := fun he => hA (by simp [he])
    rw [List.cons_append, splitBlankAux_cons_not_nl ha]
    rw [ih (fun hm => hA (by simp [hm]))]
    simp

theorem splitBlankAux_sep {c : Char} (hc : pyIsSpace c = false) (t acc : List Char) :
    splitBlankAux ('\n' :: '\n' :: c :: t) acc =
      acc.reverse :: splitBlankAux (c :: t) [] := by
  have htake : ('\n' :: c :: t).takeWhile pyIsSpace = ['\n'] := by
    rw [List.takeWhile_cons, List.takeWhile_cons]
    simp [hc]
    decide
  have hdrop : ('\n' :: c :: t).dropWhile pyIsSpace = c :: t := by
    rw [List.dropWhile_cons, List.dropWhile_cons]
    simp [hc]
    decide
  have hsome : afterLastNl (('\n' :: c :: t).takeWhile pyIsSpace) = some [] := by
    rw [htake]; decide
  rw [splitBlankAux_cons_nl_some hsome, hdrop]
  simp

/-- `re.split(r'\n\s*\n', text)` returns the whole text as the single token
when the text has no newline at all. -/
theorem splitBlank_no_nl {l : List Char} (h : '\n' ∉ l) : splitBlank l = [l] := by
  rw [splitBlank, splitBlankAux_no_nl h]
  simp

theorem splitSentAux_nil (acc : List Char) : splitSentAux [] acc = [acc.reverse] := by
  rw [splitSentAux]

theorem splitSentAux_cons_not_term {c : Char} (hc : isSentenceTerm c = false)
    (rest acc : List Char) :
    splitSentAux (c :: rest) acc = splitSentAux rest (c :: acc) := by
  rw [splitSentAux]
  simp [hc]

theorem splitSentAux_cons_term {c : Char} (hc : isSentenceTerm c = true)
    (rest acc : List Char) :
    splitSentAux (c :: rest) acc =
      acc.reverse :: splitSentAux (rest.dropWhile pyIsSpace) [] := by
  rw [splitSentAux]
  simp [hc]

theorem splitSentAux_no_term {l : List Char} (h : ∀ c ∈ l, isSentenceTerm c = false) :
    ∀ acc, splitSentAux l acc = [acc.reverse ++ l] := by
  induction l with
  | nil => intro acc; simp [splitSentAux_nil]
  | cons c rest ih =>
    intro acc
    rw [splitSentAux_cons_not_term (h c (by simp))]
    rw [ih (fun d hd => h d (by simp [hd]))]
    simp

theorem splitSentAux_append_no_term {A : List Char}
    (hA : ∀ c ∈ A, isSentenceTerm c = false) :
    ∀ (l acc : List Char), splitSentAux (A ++ l) acc = splitSentAux l (A.reverse ++ acc) := by
  induction A with
  | nil => intro l acc; simp
  | cons a A' ih =>
    intro l acc
    rw [List.cons_append, splitSentAux_cons_not_term (hA a (by simp))]
    rw [ih (fun d hd => hA d (by simp [hd]))]
    simp

theorem splitSentences_no_term {l : List Char} (h : ∀ c ∈ l, isSentenceTerm c = false) :
    splitSentences l = [l] := by
  rw [splitSentences, splitSentAux_no_term h]
  simp

theorem dropWhile_eq_self_of_head {l : List Char}
    (h : ∀ c ∈ l, pyIsSpace c = false) : l.dropWhile pyIsSpace = l := by
  cases l with
  | nil => rfl
  | cons c rest =>
    rw [List.dropWhile_cons]
    simp [h c (by simp)]

theorem pyStrip_of_no_space {s : List Char} (h : ∀ c ∈ s, pyIsSpace c = false) :
    pyStrip s = s := by
  rw [pyStrip, dropWhile_eq_self_of_head h,
    dropWhile_eq_self_of_head (fun c hc => h c (List.mem_reverse.mp hc)),
    List.reverse_reverse]

end UrlImport

namespace UrlImport

theorem hardSlices_nil (m : Nat) : hardSlices m [] = [] := by
  rw [hardSlices]
  simp

theorem hardSlices_cons (m : Nat) (hm : m ≠ 0) {p : List Char} (hp : p ≠ []) :
    hardSlices m p = p.take m :: hardSlices m (p.drop m) := by
  rw [hardSlices]
  simp [hm, hp]

theorem hardSlices_flatten_fuel (m : Nat) (hm : m ≠ 0) :
    ∀ (n : Nat) (p : List Char), p.length ≤ n → (hardSlices m p).flatten = p := by
  intro n
  induction n with
  | zero =>
    intro p hp
    have hpe : p = [] := List.eq_nil_of_length_eq_zero (Nat.le_zero.mp hp)
    subst hpe
    rw [hardSlices_nil]
    rfl
  | succ n ih =>
    intro p hp
    by_cases hpe : p = []
    · subst hpe
      rw [hardSlices_nil]
      rfl
    · rw [hardSlices_cons m hm hpe, List.flatten_cons,
        ih (p.drop m) (by rw [List.length_drop]; omega)]
      exact List.take_append_drop m p

theorem hardSlices_flatten (m : Nat) (hm : m ≠ 0) (p : List Char) :
    (hardSlices m p).flatten = p :=
  hardSlices_flatten_fuel m hm p.length p le_rfl

theorem hardSlices_mem_le_fuel (m : Nat) :
    ∀ (n : Nat) (p : List Char), p.length ≤ n → ∀ c ∈ hardSlices m p, c.length ≤ m := by
  intro n
  induction n with
  | zero =>
    intro p hp c hc
    have hpe : p = [] := List.eq_nil_of_length_eq_zero (Nat.le_zero.mp hp)
    subst hpe
    rw [hardSlices_nil] at hc
    cases hc
  | succ n ih =>
    intro p hp c hc
    by_cases hm : m = 0
    · subst hm
      rw [hardSlices] at hc
      simp at hc
    · by_cases hpe : p = []
      · subst hpe
        rw [hardSlices_nil] at hc
        cases hc
      · rw [hardSlices_cons m hm hpe] at hc
        rcases List.mem_cons.mp hc with rfl | hc'
        · rw [List.length_take]
          omega
        · exact ih (p.drop m) (by rw [List.length_drop]; omega) c hc'

theorem hardSlices_mem_le (m : Nat) (p : List Char) :
    ∀ c ∈ hardSlices m p, c.length ≤ m :=
  hardSlices_mem_le_fuel m p.length p le_rfl

/-- Lengths of the hard slices of a 5000-character paragraph at the
2000-character limit: 2000, 2000, 1000. -/
theorem hardSlices_5000 {p : List Char} (hp : p.length = 5000) :
    (hardSlices 2000 p).map List.length = [2000, 2000, 1000] := by
  have h1 : p ≠ [] := by
    intro he; rw [he] at hp; simp at hp
  have h2 : p.drop 2000 ≠ [] := by
    intro he
    have := congrArg List.length he
    rw [List.length_drop, hp] at this
    simp at this
  have h3 : (p.drop 2000).drop 2000 ≠ [] := by
    intro he
    have := congrArg List.length he
    rw [List.length_drop, List.length_drop, hp] at this
    simp at this
  have h4 : ((p.drop 2000).drop 2000).drop 2000 = [] := by
    apply List.eq_nil_of_length_eq_zero
    rw [List.length_drop, List.length_drop, List.length_drop, hp]
  rw [hardSlices_cons 2000 (by omega) h1, hardSlices_cons 2000 (by omega) h2,
    hardSlices_cons 2000 (by omega) h3, h4, hardSlices_nil]
  simp [List.length_take, List.length_drop, hp]

end UrlImport

namespace UrlImport

theorem chunkLoop_nil (m : Nat) (chunks : List (List Char)) (current : List Char) :
    chunkLoop m [] chunks current =
      if current.isEmpty then chunks else chunks ++ [current] := by
  rw [chunkLoop]

theorem chunkLoop_cons_empty (m : Nat) {para : List Char}
    (h : (pyStrip para).isEmpty = true) (rest chunks : List (List Char))
    (current : List Char) :
    chunkLoop m (para :: rest) chunks current = chunkLoop m rest chunks current := by
  rw [chunkLoop]
  simp [h]

theorem chunkLoop_cons_fits (m : Nat) {para : List Char}
    (h : (pyStrip para).isEmpty = false)
    (hfit : current.length + (pyStrip para).length ≤ m)
    (rest chunks : List (List Char)) :
    chunkLoop m (para :: rest) chunks current =
      chunkLoop m rest chunks
        (if current.isEmpty then pyStrip para
         else current ++ ['\n', '\n'] ++ pyStrip para) := by
  rw [chunkLoop]
  simp [h, hfit]

theorem chunkLoop_cons_oversized (m : Nat) {para : List Char}
    (h : (pyStrip para).isEmpty = false)
    (hfit : ¬ (current.length + (pyStrip para).length ≤ m))
    (hbig : m < (pyStrip para).length)
    (rest chunks : List (List Char)) :
    chunkLoop m (para :: rest) chunks current =
      chunkLoop m rest
        ((if current.isEmpty then chunks else chunks ++ [current]) ++
          hardSlices m (pyStrip para)) [] := by
  rw [chunkLoop]
  simp [h, hfit, hbig]

theorem chunkLoop_cons_flush (m : Nat) {para : List Char}
    (h : (pyStrip para).isEmpty = false)
    (hfit : ¬ (current.length + (pyStrip para).length ≤ m))
    (hsmall : ¬ (m < (pyStrip para).length))
    (rest chunks : List (List Char)) :
    chunkLoop m (para :: rest) chunks current =
      chunkLoop m rest (if current.isEmpty then chunks else chunks ++ [current])
        (pyStrip para) := by
  rw [chunkLoop]
  simp [h, hfit, hsmall]

/-- Invariant of the accumulation loop: every emitted chunk is at most
`max_chars + 2` characters long (the `+ 2` slack is the reinserted
`"\n\n"`, which the source's length check does not count). -/
theorem chunkLoop_mem_le (m : Nat) :
    ∀ (paras chunks : List (List Char)) (current : List Char),
      (∀ c ∈ chunks, c.length ≤ m + 2) → current.length ≤ m + 2 →
      ∀ c ∈ chunkLoop m paras chunks current, c.length ≤ m + 2 := by
  intro paras
  induction paras with
  | nil =>
    intro chunks current hchunks hcur c hc
    rw [chunkLoop_nil] at hc
    by_cases he : current.isEmpty
    · rw [if_pos he] at hc
      exact hchunks c hc
    · rw [if_neg he] at hc
      rcases List.mem_append.mp hc with h | h
      · exact hchunks c h
      · simp at h
        subst h
        exact hcur
  | cons para rest ih =>
    intro chunks current hchunks hcur c hc
    by_cases hpe : (pyStrip para).isEmpty
    · rw [chunkLoop_cons_empty m hpe] at hc
      exact ih chunks current hchunks hcur c hc
    · have hpe' := Bool.not_eq_true _ ▸ hpe
      by_cases hfit : current.length + (pyStrip para).length ≤ m
      · rw [chunkLoop_cons_fits m (by simpa using hpe) hfit] at hc
        apply ih _ _ hchunks _ c hc
        by_cases hce : current.isEmpty
        · rw [if_pos hce]
          omega
        · rw [if_neg hce]
          simp only [List.append_assoc, List.length_append, List.length_cons,
            List.length_nil]
          omega
      · by_cases hbig : m < (pyStrip para).length
        · rw [chunkLoop_cons_oversized m (by simpa using hpe) hfit hbig] at hc
          apply ih _ _ ?_ (by simp) c hc
          intro d hd
          rcases List.mem_append.mp hd with h | h
          · by_cases hce : current.isEmpty
            · rw [if_pos hce] at h
              exact hchunks d h
            · rw [if_neg hce] at h
              rcases List.mem_append.mp h with h' | h'
              · exact hchunks d h'
              · simp at h'
                subst h'
                exact hcur
          · have := hardSlices_mem_le m (pyStrip para) d h
            omega
        · rw [chunkLoop_cons_flush m (by simpa using hpe) hfit hbig] at hc
          apply ih _ _ ?_ (by omega) c hc
          intro d hd
          by_cases hce : current.isEmpty
          · rw [if_pos hce] at hd
            exact hchunks d hd
          · rw [if_neg hce] at hd
            rcases List.mem_append.mp hd with h | h
            · exact hchunks d h
            · simp at h
              subst h
              exact hcur

/-- Every chunk produced by `_split_into_chunks` is at most `max_chars + 2`
characters long. -/
theorem split_into_chunks_mem_le (text : List Char) (max_chars : Nat)
    (hm : max_chars ≠ 0) :
    ∀ c ∈ _split_into_chunks text max_chars, c.length ≤ max_chars + 2 := by
  intro c hc
  rw [_split_into_chunks] at hc
  by_cases hlen : text.length ≤ max_chars
  · rw [if_pos hlen] at hc
    simp at hc
    subst hc
    omega
  · rw [if_neg hlen] at hc
    exact chunkLoop_mem_le max_chars _ [] [] (by simp) (by simp) c hc

end UrlImport

namespace UrlImport

/-- On a text with no whitespace and no sentence terminators that exceeds
the limit, `_split_into_chunks` reduces to the hard-slice loop. -/
theorem split_into_chunks_flat (text : List Char)
    (hflat : ∀ c ∈ text, pyIsSpace c = false ∧ isSentenceTerm c = false)
    (hbig : 2000 < text.length) :
    _split_into_chunks text 2000 = hardSlices 2000 text := by
  have hnl : '\n' ∉ text := by
    intro hm
    exact absurd ((hflat '\n' hm).1) (by decide)
  have hsb : splitBlank text = [text] := splitBlank_no_nl hnl
  have hss : splitSentences text = [text] :=
    splitSentences_no_term (fun c hc => (hflat c hc).2)
  have hstrip : pyStrip text = text :=
    pyStrip_of_no_space (fun c hc => (hflat c hc).1)
  have htne : text ≠ [] := by
    intro he
    rw [he] at hbig
    simp at hbig
  have hlen' : ¬ (text.length ≤ 2000) := by omega
  have h1 : _split_into_chunks text 2000 = chunkLoop 2000 [text] [] [] := by
    simp only [_split_into_chunks, if_neg hlen', hsb, hss]
    simp
  rw [h1]
  rw [chunkLoop_cons_oversized 2000
    (by rw [hstrip]; simp [htne])
    (by rw [hstrip]; simp; omega)
    (by rw [hstrip]; omega)]
  rw [chunkLoop_nil, hstrip]
  simp

theorem pages_map_text_length (chunks : List (List Char)) :
    ((chunks.enum.map (fun q =>
        ({ page_number := q.1 + 1, text := q.2,
           text_length := q.2.length, is_ai_enhanced := false } : ImportPage))).map
      (fun p => p.text_length)) = chunks.map List.length := by
  rw [List.map_map]
  rw [show ((fun p : ImportPage => p.text_length) ∘
      (fun q : Nat × List Char =>
        ({ page_number := q.1 + 1, text := q.2,
           text_length := q.2.length, is_ai_enhanced := false } : ImportPage))) =
      (List.length ∘ Prod.snd) from rfl]
  rw [← List.map_map, List.enum_map_snd]

theorem pages_map_text (chunks : List (List Char)) :
    ((chunks.enum.map (fun q =>
        ({ page_number := q.1 + 1, text := q.2,
           text_length := q.2.length, is_ai_enhanced := false } : ImportPage))).map
      (fun p => p.text)) = chunks := by
  rw [List.map_map]
  rw [show ((fun p : ImportPage => p.text) ∘
      (fun q : Nat × List Char =>
        ({ page_number := q.1 + 1, text := q.2,
           text_length := q.2.length, is_ai_enhanced := false } : ImportPage))) =
      Prod.snd from rfl]
  rw [List.enum_map_snd]

/-- For an extraction longer than 2000 characters with auto-split and the
split feature enabled, the completed job's pages are one page per chunk of
`_split_into_chunks`. -/
theorem process_url_import_split_pages (job : ImportJobInfo) (import_id : String)
    (er : ExtractionResult) (enhance : List Char → Except String String)
    (auto_title : Bool) (hbig : 2000 < er.text.length) :
    (_process_url_import job import_id (Except.ok er) enhance auto_title true
      true).pages =
      (_split_into_chunks er.text 2000).enum.map
        (fun q => { page_number := q.1 + 1, text := q.2,
                    text_length := q.2.length, is_ai_enhanced := false }) ∧
    (_process_url_import job import_id (Except.ok er) enhance auto_title true
      true).status = "completed" ∧
    (_process_url_import job import_id (Except.ok er) enhance auto_title true
      true).total_pages =
      some ((_split_into_chunks er.text 2000).enum.map
        (fun q => ({ page_number := q.1 + 1, text := q.2,
                     text_length := q.2.length, is_ai_enhanced := false } : ImportPage))).length := by
  refine ⟨?_, ?_, ?_⟩ <;> simp [_process_url_import, hbig]

end UrlImport

namespace UrlImport

/-- C3 amended: for a 5000-character extraction with no blank-line paragraph
separators and no sentence terminators, the completed import job with
auto-split and the split feature enabled has exactly 3 pages of lengths
2000, 2000, 1000 — each within the 2000-character limit — and the
concatenation of the page texts reproduces the original text; in general
the chunks of `_split_into_chunks` are bounded by `max_chars + 2` only (the
length check ignores the two characters of the reinserted `"\n\n"`
separator), and page count and reproduction depend on the separator
structure of the text. -/
theorem split_scenario_amended (text : List Char)
    (hflat : ∀ c ∈ text, pyIsSpace c = false ∧ isSentenceTerm c = false)
    (hlen : text.length = 5000)
    (job : ImportJobInfo) (import_id : String) (title : Option String)
    (enhance : List Char → Except String String) (auto_title : Bool) :
    ((_process_url_import job import_id (Except.ok { text := text, title := title })
        enhance auto_title true true).status = "completed" ∧
     (_process_url_import job import_id (Except.ok { text := text, title := title })
        enhance auto_title true true).total_pages = some 3 ∧
     ((_process_url_import job import_id (Except.ok { text := text, title := title })
        enhance auto_title true true).pages.map (fun p => p.text_length)) =
       [2000, 2000, 1000] ∧
     (∀ pg ∈ (_process_url_import job import_id
        (Except.ok { text := text, title := title })
        enhance auto_title true true).pages, pg.text_length ≤ 2000) ∧
     ((_process_url_import job import_id (Except.ok { text := text, title := title })
        enhance auto_title true true).pages.map (fun p => p.text)).flatten = text) ∧
    (∀ (t : List Char) (m : Nat), m ≠ 0 →
      ∀ c ∈ _split_into_chunks t m, c.length ≤ m + 2) := by
  have hbig : 2000 < ({ text := text, title := title } : ExtractionResult).text.length := by
    show 2000 < text.length
    omega
  have hp := process_url_import_split_pages job import_id
    { text := text, title := title } enhance auto_title hbig
  have hchunks : _split_into_chunks text 2000 = hardSlices 2000 text :=
    split_into_chunks_flat text hflat (by omega)
  have hmap : (_split_into_chunks text 2000).map List.length = [2000, 2000, 1000] := by
    rw [hchunks]
    exact hardSlices_5000 hlen
  have hflat' : (_split_into_chunks text 2000).flatten = text := by
    rw [hchunks]
    exact hardSlices_flatten 2000 (by omega) text
  have hclen : (_split_into_chunks text 2000).length = 3 := by
    have := congrArg List.length hmap
    simpa using this
  have hmaptl : ((_process_url_import job import_id
      (Except.ok { text := text, title := title })
      enhance auto_title true true).pages.map (fun p => p.text_length)) =
      [2000, 2000, 1000] := by
    rw [hp.1, pages_map_text_length, hmap]
  refine ⟨⟨hp.2.1, ?_, hmaptl, ?_, ?_⟩, ?_⟩
  · rw [hp.2.2]
    simp [hclen]
  · intro pg hpg
    have hmem : pg.text_length ∈ ((_process_url_import job import_id
        (Except.ok { text := text, title := title })
        enhance auto_title true true).pages.map (fun p => p.text_length)) :=
      List.mem_map_of_mem _ hpg
    rw [hmaptl] at hmem
    rcases (by simpa using hmem : pg.text_length = 2000 ∨ pg.text_length = 2000 ∨
      pg.text_length = 1000) with h | h | h <;> omega
  · rw [hp.1, pages_map_text, hflat']
  · intro t m hm
    exact split_into_chunks_mem_le t m hm

/-- Witness for C3 amended at the 5000-character single-run text. -/
theorem split_scenario_amended_witness :
    ((∀ c ∈ List.replicate 5000 'a', pyIsSpace c = false ∧ isSentenceTerm c = false) ∧
     (List.replicate 5000 'a').length = 5000) ∧
    (_process_url_import {} "i1"
      (Except.ok { text := List.replicate 5000 'a', title := some "T" })
      (fun _ => Except.ok "AI") false true true).status = "completed" ∧
    (_process_url_import {} "i1"
      (Except.ok { text := List.replicate 5000 'a', title := some "T" })
      (fun _ => Except.ok "AI") false true true).total_pages = some 3 ∧
    ((_process_url_import {} "i1"
      (Except.ok { text := List.replicate 5000 'a', title := some "T" })
      (fun _ => Except.ok "AI") false true true).pages.map (fun p => p.text_length)) =
      [2000, 2000, 1000] := by
  have hflat : ∀ c ∈ List.replicate 5000 'a',
      pyIsSpace c = false ∧ isSentenceTerm c = false := by
    intro c hc
    rw [List.eq_of_mem_replicate hc]
    exact ⟨by decide, by decide⟩
  have hlen : (List.replicate 5000 'a').length = 5000 := by
    rw [List.length_replicate]
  have hmain := split_scenario_amended (List.replicate 5000 'a') hflat hlen
    {} "i1" (some "T") (fun _ => Except.ok "AI") false
  exact ⟨⟨hflat, hlen⟩, hmain.1.1, hmain.1.2.1, hmain.1.2.2.1⟩

end UrlImport

namespace UrlImport

theorem not_mem_replicate_of_ne {a b : Char} (h : a ≠ b) (n : Nat) :
    a ∉ List.replicate n b := by
  intro hm
  exact h (List.eq_of_mem_replicate hm)

theorem replicate_ne_nil (n : Nat) (hn : n ≠ 0) (c : Char) :
    List.replicate n c ≠ [] := by
  intro h
  have := congrArg List.length h
  rw [List.length_replicate] at this
  exact hn (by simpa using this)

theorem replicate_isEmpty_false (n : Nat) (hn : n ≠ 0) (c : Char) :
    (List.replicate n c).isEmpty = false := by
  cases n with
  | zero => exact absurd rfl hn
  | succ k => rw [List.replicate_succ]; rfl

theorem splitBlank_ce :
    splitBlank (List.replicate 1000 'a' ++ (['\n', '\n'] ++
        (List.replicate 1000 'b' ++ (['\n', '\n'] ++ List.replicate 2996 'c')))) =
      [List.replicate 1000 'a', List.replicate 1000 'b', List.replicate 2996 'c'] := by
  have hnlA : '\n' ∉ List.replicate 1000 'a' := not_mem_replicate_of_ne (by decide) 1000
  have hnlB : '\n' ∉ List.replicate 1000 'b' := not_mem_replicate_of_ne (by decide) 1000
  have hnlC : '\n' ∉ List.replicate 2996 'c' := not_mem_replicate_of_ne (by decide) 2996
  rw [splitBlank, splitBlankAux_append_no_nl hnlA]
  simp only [List.cons_append, List.nil_append]
  have hB : List.replicate 1000 'b' ++ ('\n' :: '\n' :: List.replicate 2996 'c') =
      'b' :: (List.replicate 999 'b' ++ ('\n' :: '\n' :: List.replicate 2996 'c')) := by
    rw [show (1000 : Nat) = 999 + 1 from rfl, List.replicate_succ, List.cons_append]
  rw [hB, splitBlankAux_sep (by decide), ← hB]
  rw [splitBlankAux_append_no_nl hnlB]
  have hC : List.replicate 2996 'c' = 'c' :: List.replicate 2995 'c' := by
    rw [show (2996 : Nat) = 2995 + 1 from rfl, List.replicate_succ]
  rw [hC, splitBlankAux_sep (by decide), ← hC]
  rw [splitBlankAux_no_nl hnlC]
  simp only [List.append_nil, List.nil_append, List.reverse_reverse,
    List.reverse_nil]

theorem chunkLoop_ce :
    chunkLoop 2000 [List.replicate 1000 'a', List.replicate 1000 'b',
        List.replicate 2996 'c'] [] [] =
      [List.replicate 1000 'a' ++ ['\n', '\n'] ++ List.replicate 1000 'b',
       List.replicate 2000 'c', List.replicate 996 'c'] := by
  have hsA : pyStrip (List.replicate 1000 'a') = List.replicate 1000 'a' :=
    pyStrip_of_no_space (by intro c hc; rw [List.eq_of_mem_replicate hc]; decide)
  have hsB : pyStrip (List.replicate 1000 'b') = List.replicate 1000 'b' :=
    pyStrip_of_no_space (by intro c hc; rw [List.eq_of_mem_replicate hc]; decide)
  have hsC : pyStrip (List.replicate 2996 'c') = List.replicate 2996 'c' :=
    pyStrip_of_no_space (by intro c hc; rw [List.eq_of_mem_replicate hc]; decide)
  rw [chunkLoop_cons_fits 2000
    (by rw [hsA]; exact replicate_isEmpty_false 1000 (by omega) 'a')
    (by rw [hsA]; simp only [List.length_nil, List.length_replicate]; omega)]
  rw [if_pos (by decide), hsA]
  rw [chunkLoop_cons_fits 2000
    (by rw [hsB]; exact replicate_isEmpty_false 1000 (by omega) 'b')
    (by rw [hsB]; simp only [List.length_replicate]; omega)]
  rw [if_neg (by rw [replicate_isEmpty_false 1000 (by omega) 'a']; simp), hsB]
  rw [chunkLoop_cons_oversized 2000
    (by rw [hsC]; exact replicate_isEmpty_false 2996 (by omega) 'c')
    (by rw [hsC]
        simp only [List.length_append, List.length_replicate, List.length_cons,
          List.length_nil]
        omega)
    (by rw [hsC]; rw [List.length_replicate]; omega)]
  rw [if_neg (by
    simp only [List.isEmpty_eq_true, List.append_assoc]
    intro h
    have := congrArg List.length h
    simp only [List.length_append, List.length_replicate, List.length_cons,
      List.length_nil] at this
    omega), hsC]
  rw [chunkLoop_nil, if_pos (show ([] : List Char).isEmpty = true from rfl)]
  have h2 : List.replicate 2996 'c' ≠ [] := replicate_ne_nil 2996 (by omega) 'c'
  have hdrop1 : (List.replicate 2996 'c').drop 2000 = List.replicate 996 'c' := by
    rw [List.drop_replicate]
  have h3 : (List.replicate 2996 'c').drop 2000 ≠ [] := by
    rw [hdrop1]
    exact replicate_ne_nil 996 (by omega) 'c'
  have h4 : ((List.replicate 2996 'c').drop 2000).drop 2000 = [] := by
    rw [hdrop1, List.drop_replicate]
    rfl
  rw [hardSlices_cons 2000 (by omega) h2, hardSlices_cons 2000 (by omega) h3, h4,
    hardSlices_nil]
  rw [hdrop1, List.take_replicate, List.take_replicate]
  simp only [List.nil_append]
  rw [show min 2000 2996 = 2000 from rfl, show min 2000 996 = 996 from rfl]
  rfl

theorem split_into_chunks_ce :
    _split_into_chunks (List.replicate 1000 'a' ++ (['\n', '\n'] ++
        (List.replicate 1000 'b' ++ (['\n', '\n'] ++ List.replicate 2996 'c')))) 2000 =
      [List.replicate 1000 'a' ++ ['\n', '\n'] ++ List.replicate 1000 'b',
       List.replicate 2000 'c', List.replicate 996 'c'] := by
  have hlen : (List.replicate 1000 'a' ++ (['\n', '\n'] ++
      (List.replicate 1000 'b' ++ (['\n', '\n'] ++ List.replicate 2996 'c')))).length =
      5000 := by
    simp only [List.length_append, List.length_replicate, List.length_cons,
      List.length_nil]
  have hgt : ¬ ((List.replicate 1000 'a' ++ (['\n', '\n'] ++
      (List.replicate 1000 'b' ++ (['\n', '\n'] ++ List.replicate 2996 'c')))).length ≤
      2000) := by
    rw [hlen]
    omega
  simp only [_split_into_chunks, if_neg hgt, splitBlank_ce]
  rw [if_neg (by decide)]
  exact chunkLoop_ce

theorem splitSentences_xy :
    splitSentences (List.replicate 2100 'x' ++ ('。' :: List.replicate 2100 'y')) =
      [List.replicate 2100 'x', List.replicate 2100 'y'] := by
  have hX : ∀ c ∈ List.replicate 2100 'x', isSentenceTerm c = false := by
    intro c hc; rw [List.eq_of_mem_replicate hc]; decide
  have hY : ∀ c ∈ List.replicate 2100 'y', isSentenceTerm c = false := by
    intro c hc; rw [List.eq_of_mem_replicate hc]; decide
  have hYs : ∀ c ∈ List.replicate 2100 'y', pyIsSpace c = false := by
    intro c hc; rw [List.eq_of_mem_replicate hc]; decide
  rw [splitSentences, splitSentAux_append_no_term hX, splitSentAux_cons_term (by decide)]
  rw [dropWhile_eq_self_of_head hYs, splitSentAux_no_term hY]
  simp only [List.append_nil, List.reverse_reverse, List.reverse_nil,
    List.nil_append]

theorem split_into_chunks_xy :
    _split_into_chunks (List.replicate 2100 'x' ++ ('。' :: List.replicate 2100 'y')) 2000 =
      hardSlices 2000 (List.replicate 2100 'x') ++
        hardSlices 2000 (List.replicate 2100 'y') := by
  have hnl : '\n' ∉ List.replicate 2100 'x' ++ ('。' :: List.replicate 2100 'y') := by
    intro h
    rcases List.mem_append.mp h with h1 | h1
    · exact not_mem_replicate_of_ne (by decide) 2100 h1
    · rcases List.mem_cons.mp h1 with h2 | h2
      · cases h2
      · exact not_mem_replicate_of_ne (by decide) 2100 h2
  have hsX : pyStrip (List.replicate 2100 'x') = List.replicate 2100 'x' :=
    pyStrip_of_no_space (by intro c hc; rw [List.eq_of_mem_replicate hc]; decide)
  have hsY : pyStrip (List.replicate 2100 'y') = List.replicate 2100 'y' :=
    pyStrip_of_no_space (by intro c hc; rw [List.eq_of_mem_replicate hc]; decide)
  have hlen : (List.replicate 2100 'x' ++ ('。' :: List.replicate 2100 'y')).length =
      4201 := by
    simp only [List.length_append, List.length_replicate, List.length_cons]
  have hgt : ¬ ((List.replicate 2100 'x' ++ ('。' :: List.replicate 2100 'y')).length ≤
      2000) := by
    rw [hlen]
    omega
  simp only [_split_into_chunks, if_neg hgt, splitBlank_no_nl hnl]
  rw [if_pos (by decide), splitSentences_xy]
  rw [chunkLoop_cons_oversized 2000
    (by rw [hsX]; exact replicate_isEmpty_false 2100 (by omega) 'x')
    (by rw [hsX]; simp only [List.length_nil, List.length_replicate]; omega)
    (by rw [hsX]; rw [List.length_replicate]; omega)]
  rw [if_pos (show ([] : List Char).isEmpty = true from rfl), hsX]
  rw [chunkLoop_cons_oversized 2000
    (by rw [hsY]; exact replicate_isEmpty_false 2100 (by omega) 'y')
    (by rw [hsY]; simp only [List.length_nil, List.length_replicate]; omega)
    (by rw [hsY]; rw [List.length_replicate]; omega)]
  rw [if_pos (show ([] : List Char).isEmpty = true from rfl), hsY]
  rw [chunkLoop_nil, if_pos (show ([] : List Char).isEmpty = true from rfl)]
  simp only [List.nil_append]

/-- C3 counterexample: the claim fails at two concrete 5000- and
4201-character inputs.  For the 5000-character text
`'a'*1000 + "\n\n" + 'b'*1000 + "\n\n" + 'c'*2996` the completed job does
have 3 pages but its first page is 2002 characters long (the length check
of the accumulation loop does not count the reinserted `"\n\n"`), so "every
page is at most 2000 characters" is false; and for
`'x'*2100 + '。' + 'y'*2100` the concatenation of the chunks drops the
sentence terminator `。`, so the chunks' concatenation does not reproduce
the original text. -/
theorem split_scenario_counterexample :
    (List.replicate 1000 'a' ++ (['\n', '\n'] ++
      (List.replicate 1000 'b' ++ (['\n', '\n'] ++ List.replicate 2996 'c')))).length =
      5000 ∧
    ((_process_url_import {} "i1"
      (Except.ok
        { text := List.replicate 1000 'a' ++ (['\n', '\n'] ++
            (List.replicate 1000 'b' ++ (['\n', '\n'] ++ List.replicate 2996 'c'))),
          title := some "T" })
      (fun _ => Except.ok "AI") false true true).pages.map (fun p => p.text_length)) =
      [2002, 2000, 996] ∧
    ¬ (∀ pg ∈ (_process_url_import {} "i1"
      (Except.ok
        { text := List.replicate 1000 'a' ++ (['\n', '\n'] ++
            (List.replicate 1000 'b' ++ (['\n', '\n'] ++ List.replicate 2996 'c'))),
          title := some "T" })
      (fun _ => Except.ok "AI") false true true).pages, pg.text_length ≤ 2000) ∧
    '。' ∈ List.replicate 2100 'x' ++ ('。' :: List.replicate 2100 'y') ∧
    (_split_into_chunks (List.replicate 2100 'x' ++ ('。' :: List.replicate 2100 'y'))
      2000).flatten = List.replicate 2100 'x' ++ List.replicate 2100 'y' ∧
    (_split_into_chunks (List.replicate 2100 'x' ++ ('。' :: List.replicate 2100 'y'))
      2000).flatten ≠
      List.replicate 2100 'x' ++ ('。' :: List.replicate 2100 'y') := by
  have hlen : (List.replicate 1000 'a' ++ (['\n', '\n'] ++
      (List.replicate 1000 'b' ++ (['\n', '\n'] ++ List.replicate 2996 'c')))).length =
      5000 := by
    simp only [List.length_append, List.length_replicate, List.length_cons,
      List.length_nil]
  have hbig : 2000 <
      ({ text := List.replicate 1000 'a' ++ (['\n', '\n'] ++
           (List.replicate 1000 'b' ++ (['\n', '\n'] ++ List.replicate 2996 'c'))),
         title := some "T" } : ExtractionResult).text.length := by
    show 2000 < (List.replicate 1000 'a' ++ (['\n', '\n'] ++
      (List.replicate 1000 'b' ++ (['\n', '\n'] ++ List.replicate 2996 'c')))).length
    rw [hlen]
    omega
  have hp := process_url_import_split_pages {} "i1"
    { text := List.replicate 1000 'a' ++ (['\n', '\n'] ++
        (List.replicate 1000 'b' ++ (['\n', '\n'] ++ List.replicate 2996 'c'))),
      title := some "T" }
    (fun _ => Except.ok "AI") false hbig
  have hmaptl : ((_process_url_import {} "i1"
      (Except.ok
        { text := List.replicate 1000 'a' ++ (['\n', '\n'] ++
            (List.replicate 1000 'b' ++ (['\n', '\n'] ++ List.replicate 2996 'c'))),
          title := some "T" })
      (fun _ => Except.ok "AI") false true true).pages.map (fun p => p.text_length)) =
      [2002, 2000, 996] := by
    rw [hp.1, pages_map_text_length]
    rw [show ({ text := List.replicate 1000 'a' ++ (['\n', '\n'] ++
                  (List.replicate 1000 'b' ++ (['\n', '\n'] ++ List.replicate 2996 'c'))),
                title := some "T" } : ExtractionResult).text =
      List.replicate 1000 'a' ++ (['\n', '\n'] ++
        (List.replicate 1000 'b' ++ (['\n', '\n'] ++ List.replicate 2996 'c'))) from rfl]
    rw [split_into_chunks_ce]
    simp only [List.map_cons, List.map_nil, List.length_append,
      List.length_replicate, List.length_cons, List.length_nil]
  refine ⟨hlen, hmaptl, ?_,
    List.mem_append.mpr (Or.inr (List.mem_cons_self _ _)), ?_, ?_⟩
  · intro hall
    have h2002 : (2002 : Nat) ∈ ((_process_url_import {} "i1"
        (Except.ok
        { text := List.replicate 1000 'a' ++ (['\n', '\n'] ++
            (List.replicate 1000 'b' ++ (['\n', '\n'] ++ List.replicate 2996 'c'))),
          title := some "T" })
        (fun _ => Except.ok "AI") false true true).pages.map (fun p => p.text_length)) := by
      rw [hmaptl]
      exact List.mem_cons_self _ _
    rcases List.mem_map.mp h2002 with ⟨pg, hpg, hpgl⟩
    have := hall pg hpg
    omega
  · rw [split_into_chunks_xy, List.flatten_append,
      hardSlices_flatten 2000 (by omega), hardSlices_flatten 2000 (by omega)]
  · rw [split_into_chunks_xy, List.flatten_append,
      hardSlices_flatten 2000 (by omega), hardSlices_flatten 2000 (by omega)]
    intro h
    have hlc := congrArg List.length h
    simp only [List.length_append, List.length_replicate, List.length_cons] at hlc
    omega
end UrlImport
